import Mathlib

/-!
# Locomotion state machine of `AMovementCharacter`

Shallow embedding of `Source/Movement/MovementCharacter.cpp`.

The four `float` members `movementNumber` (level), `lastMovementNumber`
(lastLevel), `movementMultiplier` (multiplier) and `startingWalkSpeed`
(baseSpeed) are embedded twice.

* In `Movement` they are rationals: every arithmetic step is exact, the literal
  `0.01f` is the rational `1/100`.  This embedding carries the statements about
  one tick, a few ticks, or the branch structure, where rounding changes neither
  the branch taken nor the calls made.
* In `Movement.Binary32` they are binary32 values and every `+=`, `-=` and `*`
  is rounded as the compiled code rounds it.  This embedding carries the
  statements about long runs of ticks (ramp-up, decay, bounds, convergence),
  where the accumulated rounding decides which branch a tick takes.

The calls the class makes on the
engine (`GetCharacterMovement()->MaxWalkSpeed = v` and
`AddMovementInput(GetActorForwardVector(), scale)`) are recorded, in program
order, as a list of `EngineCall`s; the forward vector itself belongs to the
engine and is not modelled.
-/

namespace Movement

/-- Calls on the engine made by `MoveCharacter`, in the order they are made. -/
inductive EngineCall where
  /-- The write `GetCharacterMovement()->MaxWalkSpeed = v`. -/
  | SetMaxWalkSpeed (v : ℚ)
  /-- The call `AddMovementInput(GetActorForwardVector(), scale)`. -/
  | AddMovementInput (scale : ℚ)
  deriving DecidableEq, Repr

/-- The members of `AMovementCharacter` that the locomotion code reads and writes. -/
structure AMovementCharacter where
  movementNumber : ℚ
  lastMovementNumber : ℚ
  movementMultiplier : ℚ
  startingWalkSpeed : ℚ
  deriving DecidableEq, Repr

/-- The constructor `AMovementCharacter::AMovementCharacter()` (lines 21-25);
`maxWalkSpeed` is the engine's `GetCharacterMovement()->MaxWalkSpeed` at that time. -/
def construct (maxWalkSpeed : ℚ) : AMovementCharacter :=
  { movementNumber := 0
    lastMovementNumber := 0
    movementMultiplier := 0
    startingWalkSpeed := maxWalkSpeed }

/-- Method `AMovementCharacter::ForwardMovement` (lines 153-157). -/
def ForwardMovement (self : AMovementCharacter) : AMovementCharacter :=
  if self.movementNumber < 4 then
    { self with movementNumber := self.movementNumber + 1 }
  else self

/-- Method `AMovementCharacter::BackwardMovement` (lines 159-163). -/
def BackwardMovement (self : AMovementCharacter) : AMovementCharacter :=
  if self.movementNumber > -4 then
    { self with movementNumber := self.movementNumber - 1 }
  else self

/-- Method `AMovementCharacter::StopMovement` (lines 165-167). -/
def StopMovement (self : AMovementCharacter) : AMovementCharacter :=
  { self with movementNumber := 0 }

/-- Method `AMovementCharacter::FullForward` (lines 169-171). -/
def FullForward (self : AMovementCharacter) : AMovementCharacter :=
  { self with movementNumber := 4 }

/-- Method `AMovementCharacter::FullBackward` (lines 173-176). -/
def FullBackward (self : AMovementCharacter) : AMovementCharacter :=
  { self with movementNumber := -4 }

/-- Method `AMovementCharacter::MoveCharacter` (lines 178-242).  The three arguments are
passed by value; the body tests the arguments and updates the members.  The
result is the updated object and the engine calls made, in order. -/
def MoveCharacter (self : AMovementCharacter)
    (aMovementNumber aLastMovementNumber aMovementMultiplier : ℚ) :
    AMovementCharacter × List EngineCall :=
  if aMovementNumber > 0 ∧ aLastMovementNumber ≥ 0 then
    let self1 : AMovementCharacter :=
      if aMovementMultiplier ≠ aMovementNumber ∧ aMovementNumber > aMovementMultiplier then
        { self with movementMultiplier := self.movementMultiplier + (1 / 100) * aMovementNumber }
      else if aMovementNumber ≠ aMovementMultiplier ∧ aMovementNumber < aMovementMultiplier then
        { self with movementMultiplier := self.movementMultiplier - 1 / 100 }
      else self
    ({ self1 with lastMovementNumber := self1.movementNumber },
      [EngineCall.SetMaxWalkSpeed (self1.startingWalkSpeed * self1.movementMultiplier),
       EngineCall.AddMovementInput 1])
  else if aMovementNumber > 0 ∧ aLastMovementNumber < 0 then
    if aMovementMultiplier > 0 then
      let self1 : AMovementCharacter :=
        { self with movementMultiplier := self.movementMultiplier - (1 / 100) * aMovementNumber }
      (self1,
        [EngineCall.SetMaxWalkSpeed (self1.startingWalkSpeed * self1.movementMultiplier),
         EngineCall.AddMovementInput (-1)])
    else
      ({ self with lastMovementNumber := self.movementNumber }, [])
  else if aMovementNumber < 0 ∧ aLastMovementNumber ≤ 0 then
    let self1 : AMovementCharacter :=
      if aMovementMultiplier ≠ aMovementNumber * (-1) ∧
          aMovementNumber * (-1) > aMovementMultiplier then
        { self with movementMultiplier := self.movementMultiplier - (1 / 100) * aMovementNumber }
      else if aMovementNumber ≠ aMovementNumber * (-1) ∧
          aMovementNumber * (-1) < aMovementMultiplier then
        { self with movementMultiplier := self.movementMultiplier - 1 / 100 }
      else self
    ({ self1 with lastMovementNumber := self1.movementNumber },
      [EngineCall.SetMaxWalkSpeed (self1.startingWalkSpeed * self1.movementMultiplier),
       EngineCall.AddMovementInput (-1)])
  else if aMovementNumber < 0 ∧ aLastMovementNumber > 0 then
    if aMovementMultiplier > 0 then
      let self1 : AMovementCharacter :=
        { self with movementMultiplier := self.movementMultiplier + (1 / 100) * aMovementNumber }
      (self1,
        [EngineCall.SetMaxWalkSpeed (self1.startingWalkSpeed * self1.movementMultiplier),
         EngineCall.AddMovementInput 1])
    else
      ({ self with lastMovementNumber := self.movementNumber }, [])
  else if aMovementNumber = 0 then
    if aMovementMultiplier > aMovementNumber then
      let self1 : AMovementCharacter :=
        { self with movementMultiplier := self.movementMultiplier - 1 / 100 }
      (self1,
        EngineCall.SetMaxWalkSpeed (self1.startingWalkSpeed * self1.movementMultiplier) ::
          (if aLastMovementNumber > 0 then [EngineCall.AddMovementInput 1]
           else if aLastMovementNumber < 0 then [EngineCall.AddMovementInput (-1)]
           else []))
    else
      ({ self with lastMovementNumber := 0 }, [])
  else (self, [])

/-- Method `AMovementCharacter::Tick` (lines 53-59): calls `MoveCharacter` on the current
members.  `Super::Tick` and the `bOrientRotationToMovement` write belong to the
engine and touch none of the modelled members. -/
def Tick (self : AMovementCharacter) : AMovementCharacter × List EngineCall :=
  MoveCharacter self self.movementNumber self.lastMovementNumber self.movementMultiplier

/-- The events the engine delivers to the character: the five bound input
actions (lines 71-75) and the per-frame tick. -/
inductive Event where
  | ForwardMovement
  | BackwardMovement
  | StopMovement
  | FullForward
  | FullBackward
  | Tick
  deriving DecidableEq, Repr

/-- The object after one event. -/
def step (self : AMovementCharacter) : Event → AMovementCharacter
  | Event.ForwardMovement => ForwardMovement self
  | Event.BackwardMovement => BackwardMovement self
  | Event.StopMovement => StopMovement self
  | Event.FullForward => FullForward self
  | Event.FullBackward => FullBackward self
  | Event.Tick => (Tick self).1

/-- The object after a finite sequence of events, delivered left to right. -/
def run (self : AMovementCharacter) (events : List Event) : AMovementCharacter :=
  events.foldl step self

/-- The object after `n` consecutive ticks with no input in between. -/
def ticks : Nat → AMovementCharacter → AMovementCharacter
  | 0, self => self
  | n + 1, self => ticks n (Tick self).1

/-- The scales of the `AddMovementInput` calls in a list of engine calls. -/
def movementInputs : List EngineCall → List ℚ
  | [] => []
  | EngineCall.AddMovementInput v :: cs => v :: movementInputs cs
  | EngineCall.SetMaxWalkSpeed _ :: cs => movementInputs cs

/-- The values written to `MaxWalkSpeed` in a list of engine calls. -/
def maxWalkSpeedWrites : List EngineCall → List ℚ
  | [] => []
  | EngineCall.SetMaxWalkSpeed v :: cs => v :: maxWalkSpeedWrites cs
  | EngineCall.AddMovementInput _ :: cs => maxWalkSpeedWrites cs

/-- The object and the engine calls after one event.  The bodies of the five
input commands (lines 153-176) only assign `movementNumber`: they make no engine
call.  The tick makes the calls of `MoveCharacter`. -/
def deliver (self : AMovementCharacter) : Event → AMovementCharacter × List EngineCall
  | Event.ForwardMovement => (ForwardMovement self, [])
  | Event.BackwardMovement => (BackwardMovement self, [])
  | Event.StopMovement => (StopMovement self, [])
  | Event.FullForward => (FullForward self, [])
  | Event.FullBackward => (FullBackward self, [])
  | Event.Tick => Tick self

/-- The level is one of the nine integers from -4 to 4. -/
def LevelInRange (s : AMovementCharacter) : Prop :=
  ∃ z : ℤ, s.movementNumber = (z : ℚ) ∧ -4 ≤ z ∧ z ≤ 4

/-- A positive multiplier comes with a non-zero last level. -/
def CommittedHasDirection (s : AMovementCharacter) : Prop :=
  s.movementMultiplier > 0 → s.lastMovementNumber ≠ 0

/-- The sign-negated object: level and last level negated, multiplier and base
speed kept. -/
def mirror (s : AMovementCharacter) : AMovementCharacter :=
  { s with
    movementNumber := -s.movementNumber
    lastMovementNumber := -s.lastMovementNumber }

/-- The opposite engine call: a movement input with the opposite scale, a
max-speed write unchanged. -/
def mirrorCall : EngineCall → EngineCall
  | EngineCall.SetMaxWalkSpeed v => EngineCall.SetMaxWalkSpeed v
  | EngineCall.AddMovementInput scale => EngineCall.AddMovementInput (-scale)

/-! ## The same code in binary32 arithmetic

The members are `float`s: the compiled code rounds every `+=`, `-=` and `*` to
binary32 (round to nearest, ties to even).  In this second embedding a finite
binary32 value `x` is held as the integer `x * 2 ^ 149`, and each operation is the
exact integer operation followed by one rounding.  Overflow to infinity, NaN and
the sign of zero are not modelled: the levels are the integers -4, ..., 4 and the
multiplier stays between -0.05 and 4.05. -/

namespace Binary32

/-- The number of low bits that rounding to 24 significant bits drops from `a`:
the least `d` with `a / 2 ^ d < 2 ^ 24` (the first argument is recursion fuel). -/
def excessBits : Nat → Nat → Nat
  | 0, _ => 0
  | fuel + 1, a => if a < 2 ^ 24 then 0 else excessBits fuel (a / 2) + 1

/-- Round-to-nearest-even of the magnitude `a * 2 ^ (-(149 + shift))` to a binary32
magnitude, in units of `2 ^ (-149)`: 24 significant bits, and no bit below
`2 ^ (-149)` (the subnormal range). -/
@[irreducible]
def roundNat (a shift : Nat) : Nat :=
  let drop := max shift (excessBits a a)
  if drop = 0 then a
  else
    let q := a / 2 ^ drop
    let r := a % 2 ^ drop
    let half := 2 ^ (drop - 1)
    (if r > half ∨ (r = half ∧ q % 2 = 1) then q + 1 else q) * 2 ^ (drop - shift)

/-- Round-to-nearest-even of `n * 2 ^ (-(149 + shift))` to binary32, in units of
`2 ^ (-149)`; rounding is symmetric in the sign. -/
@[irreducible]
def roundInt (n : ℤ) (shift : Nat) : ℤ :=
  if n < 0 then -((roundNat n.natAbs shift : Nat) : ℤ) else ((roundNat n.natAbs shift : Nat) : ℤ)

/-- A finite binary32 value `x`, held as the integer `x * 2 ^ 149` (every finite
binary32 value is a whole multiple of `2 ^ (-149)`).  Infinities, NaN and the sign
of zero are not represented. -/
abbrev F32 := ℤ

/-- The binary32 value of a small integer, as in the conversion of `4` or `-1`. -/
@[irreducible]
def ofInt32 (z : ℤ) : F32 := z * 2 ^ 149

/-- The literal `0.01f`, bits `0x3C23D70A`: `10737418 * 2 ^ (-30)`. -/
@[irreducible]
def hundredth32 : F32 := 10737418 * 2 ^ 119

/-- The binary32 sum `a + b`, rounded once. -/
@[irreducible]
def add32 (a b : F32) : F32 := roundInt (a + b) 0

/-- The binary32 difference `a - b`, rounded once. -/
@[irreducible]
def sub32 (a b : F32) : F32 := roundInt (a - b) 0

/-- The binary32 product `a * b`, rounded once. -/
@[irreducible]
def mul32 (a b : F32) : F32 := roundInt (a * b) 149

/-- The rational number a binary32 value stands for. -/
def toRat32 (a : F32) : ℚ := (a : ℚ) / 2 ^ 149

/-- Calls on the engine made by `MoveCharacter`, in order, with binary32 arguments. -/
inductive EngineCall where
  /-- The write `GetCharacterMovement()->MaxWalkSpeed = v`. -/
  | SetMaxWalkSpeed (v : F32)
  /-- The call `AddMovementInput(GetActorForwardVector(), scale)`. -/
  | AddMovementInput (scale : F32)
  deriving DecidableEq, Repr

/-- The four `float` members of `AMovementCharacter`, as binary32 values. -/
structure AMovementCharacter where
  movementNumber : F32
  lastMovementNumber : F32
  movementMultiplier : F32
  startingWalkSpeed : F32
  deriving DecidableEq, Repr

/-- The constructor (lines 21-25), with the engine's `MaxWalkSpeed` as argument. -/
def construct (maxWalkSpeed : F32) : AMovementCharacter :=
  { movementNumber := 0
    lastMovementNumber := 0
    movementMultiplier := 0
    startingWalkSpeed := maxWalkSpeed }

/-- Method `AMovementCharacter::ForwardMovement` (lines 153-157) in binary32. -/
def ForwardMovement (self : AMovementCharacter) : AMovementCharacter :=
  if self.movementNumber < ofInt32 4 then
    { self with movementNumber := add32 self.movementNumber (ofInt32 1) }
  else self

/-- Method `AMovementCharacter::BackwardMovement` (lines 159-163) in binary32. -/
def BackwardMovement (self : AMovementCharacter) : AMovementCharacter :=
  if self.movementNumber > ofInt32 (-4) then
    { self with movementNumber := sub32 self.movementNumber (ofInt32 1) }
  else self

/-- Method `AMovementCharacter::StopMovement` (lines 165-167) in binary32. -/
def StopMovement (self : AMovementCharacter) : AMovementCharacter :=
  { self with movementNumber := ofInt32 0 }

/-- Method `AMovementCharacter::FullForward` (lines 169-171) in binary32. -/
def FullForward (self : AMovementCharacter) : AMovementCharacter :=
  { self with movementNumber := ofInt32 4 }

/-- Method `AMovementCharacter::FullBackward` (lines 173-176) in binary32. -/
def FullBackward (self : AMovementCharacter) : AMovementCharacter :=
  { self with movementNumber := ofInt32 (-4) }

/-- Method `AMovementCharacter::MoveCharacter` (lines 178-242) in binary32: the same
tests and assignments as the source, every `+=`, `-=` and `*` rounded once to
binary32. -/
def MoveCharacter (self : AMovementCharacter)
    (aMovementNumber aLastMovementNumber aMovementMultiplier : F32) :
    AMovementCharacter × List EngineCall :=
  if aMovementNumber > 0 ∧ aLastMovementNumber ≥ 0 then
    let self1 : AMovementCharacter :=
      if aMovementMultiplier ≠ aMovementNumber ∧ aMovementNumber > aMovementMultiplier then
        { self with
          movementMultiplier := add32 self.movementMultiplier (mul32 hundredth32 aMovementNumber) }
      else if aMovementNumber ≠ aMovementMultiplier ∧ aMovementNumber < aMovementMultiplier then
        { self with movementMultiplier := sub32 self.movementMultiplier hundredth32 }
      else self
    ({ self1 with lastMovementNumber := self1.movementNumber },
      [EngineCall.SetMaxWalkSpeed (mul32 self1.startingWalkSpeed self1.movementMultiplier),
       EngineCall.AddMovementInput (ofInt32 1)])
  else if aMovementNumber > 0 ∧ aLastMovementNumber < 0 then
    if aMovementMultiplier > 0 then
      let self1 : AMovementCharacter :=
        { self with
          movementMultiplier := sub32 self.movementMultiplier (mul32 hundredth32 aMovementNumber) }
      (self1,
        [EngineCall.SetMaxWalkSpeed (mul32 self1.startingWalkSpeed self1.movementMultiplier),
         EngineCall.AddMovementInput (ofInt32 (-1))])
    else
      ({ self with lastMovementNumber := self.movementNumber }, [])
  else if aMovementNumber < 0 ∧ aLastMovementNumber ≤ 0 then
    let self1 : AMovementCharacter :=
      if aMovementMultiplier ≠ mul32 aMovementNumber (ofInt32 (-1)) ∧
          mul32 aMovementNumber (ofInt32 (-1)) > aMovementMultiplier then
        { self with
          movementMultiplier := sub32 self.movementMultiplier (mul32 hundredth32 aMovementNumber) }
      else if aMovementNumber ≠ mul32 aMovementNumber (ofInt32 (-1)) ∧
          mul32 aMovementNumber (ofInt32 (-1)) < aMovementMultiplier then
        { self with movementMultiplier := sub32 self.movementMultiplier hundredth32 }
      else self
    ({ self1 with lastMovementNumber := self1.movementNumber },
      [EngineCall.SetMaxWalkSpeed (mul32 self1.startingWalkSpeed self1.movementMultiplier),
       EngineCall.AddMovementInput (ofInt32 (-1))])
  else if aMovementNumber < 0 ∧ aLastMovementNumber > 0 then
    if aMovementMultiplier > 0 then
      let self1 : AMovementCharacter :=
        { self with
          movementMultiplier := add32 self.movementMultiplier (mul32 hundredth32 aMovementNumber) }
      (self1,
        [EngineCall.SetMaxWalkSpeed (mul32 self1.startingWalkSpeed self1.movementMultiplier),
         EngineCall.AddMovementInput (ofInt32 1)])
    else
      ({ self with lastMovementNumber := self.movementNumber }, [])
  else if aMovementNumber = 0 then
    if aMovementMultiplier > aMovementNumber then
      let self1 : AMovementCharacter :=
        { self with movementMultiplier := sub32 self.movementMultiplier hundredth32 }
      (self1,
        EngineCall.SetMaxWalkSpeed (mul32 self1.startingWalkSpeed self1.movementMultiplier) ::
          (if aLastMovementNumber > 0 then [EngineCall.AddMovementInput (ofInt32 1)]
           else if aLastMovementNumber < 0 then [EngineCall.AddMovementInput (ofInt32 (-1))]
           else []))
    else
      ({ self with lastMovementNumber := 0 }, [])
  else (self, [])

/-- Method `AMovementCharacter::Tick` (lines 53-59) in binary32. -/
def Tick (self : AMovementCharacter) : AMovementCharacter × List EngineCall :=
  MoveCharacter self self.movementNumber self.lastMovementNumber self.movementMultiplier

/-- The object after one event, in binary32. -/
def step (self : AMovementCharacter) : Event → AMovementCharacter
  | Event.ForwardMovement => ForwardMovement self
  | Event.BackwardMovement => BackwardMovement self
  | Event.StopMovement => StopMovement self
  | Event.FullForward => FullForward self
  | Event.FullBackward => FullBackward self
  | Event.Tick => (Tick self).1

/-- The object after a finite sequence of events, delivered left to right. -/
def run (self : AMovementCharacter) (events : List Event) : AMovementCharacter :=
  events.foldl step self

/-- The object after `n` consecutive ticks with no input in between. -/
def ticks : Nat → AMovementCharacter → AMovementCharacter
  | 0, self => self
  | n + 1, self => ticks n (Tick self).1

/-- The scales of the `AddMovementInput` calls in a list of engine calls. -/
def movementInputs : List EngineCall → List F32
  | [] => []
  | EngineCall.AddMovementInput v :: cs => v :: movementInputs cs
  | EngineCall.SetMaxWalkSpeed _ :: cs => movementInputs cs

/-- The level is the binary32 value of one of the nine integers from -4 to 4. -/
def LevelInRange (s : AMovementCharacter) : Prop :=
  ∃ z : ℤ, s.movementNumber = ofInt32 z ∧ -4 ≤ z ∧ z ≤ 4

/-- The multiplier lies between `-(0.04f + 2 ^ (-22))` and `4 + 0.04f + 2 ^ (-22)`,
where `0.04f` is the binary32 product `0.01f * 4`. -/
def MultiplierBounded (s : AMovementCharacter) : Prop :=
  -(4 * hundredth32 + 2 ^ 127) ≤ s.movementMultiplier ∧
    s.movementMultiplier ≤ ofInt32 4 + 4 * hundredth32 + 2 ^ 127

/-- The object has settled near the target for the integer level `z`: level and
lastLevel are `z` and the multiplier is within `|z| * 0.01f + 2 ^ (-22)` of `|z|`. -/
def NearTarget (z : ℤ) (s : AMovementCharacter) : Prop :=
  s.movementNumber = ofInt32 z ∧ s.lastMovementNumber = ofInt32 z ∧
    ofInt32 |z| - (|z| * hundredth32 + 2 ^ 127) ≤ s.movementMultiplier ∧
    s.movementMultiplier ≤ ofInt32 |z| + (|z| * hundredth32 + 2 ^ 127)

/-- A check of `P n s` along a run of `k` ticks: at the object `s`, numbered `n`,
and at each of the `k` objects that follow, numbered `n + 1`, ..., `n + k`. -/
def checkRun (P : Nat → AMovementCharacter → Bool) : Nat → Nat → AMovementCharacter → Bool
  | 0, n, s => P n s
  | k + 1, n, s => P n s && checkRun P k (n + 1) (Tick s).1

/-- The ramp check at tick count `n`: level 4, lastLevel not negative, multiplier
below 4 and within 3/1000000 of 4n/100. -/
def rampCheck (n : Nat) (s : AMovementCharacter) : Bool :=
  decide (s.movementNumber = ofInt32 4 ∧ 0 ≤ s.lastMovementNumber ∧
    s.movementMultiplier < ofInt32 4 ∧
    1000000 * (100 * s.movementMultiplier - 4 * (n : ℤ) * 2 ^ 149) ≤ 300 * 2 ^ 149 ∧
    1000000 * (4 * (n : ℤ) * 2 ^ 149 - 100 * s.movementMultiplier) ≤ 300 * 2 ^ 149)

end Binary32

/-! ## Basic facts about the tick -/

/-- A tick never writes `movementNumber`. -/
theorem Tick_movementNumber (s : AMovementCharacter) :
    (Tick s).1.movementNumber = s.movementNumber := by
  unfold Tick MoveCharacter
  split_ifs <;> rfl

/-- Unfolding `run` one event at a time from the left. -/
theorem run_cons (s : AMovementCharacter) (e : Event) (es : List Event) :
    run s (e :: es) = run (step s e) es := rfl

/-- The level after `ForwardMovement`. -/
theorem ForwardMovement_movementNumber (s : AMovementCharacter) :
    (ForwardMovement s).movementNumber =
      if s.movementNumber < 4 then s.movementNumber + 1 else s.movementNumber := by
  unfold ForwardMovement
  split_ifs <;> rfl

/-- The level after `BackwardMovement`. -/
theorem BackwardMovement_movementNumber (s : AMovementCharacter) :
    (BackwardMovement s).movementNumber =
      if s.movementNumber > -4 then s.movementNumber - 1 else s.movementNumber := by
  unfold BackwardMovement
  split_ifs <;> rfl

/-- Every event keeps the level an integer between -4 and 4. -/
theorem LevelInRange_step (s : AMovementCharacter) (e : Event) (h : LevelInRange s) :
    LevelInRange (step s e) := by
  obtain ⟨z, hz, hlo, hhi⟩ := h
  cases e
  · by_cases hlt : s.movementNumber < 4
    · refine ⟨z + 1, ?_, by omega, ?_⟩
      · show (ForwardMovement s).movementNumber = _
        rw [ForwardMovement_movementNumber, if_pos hlt, hz]
        push_cast
        rfl
      · have : (z : ℚ) < 4 := by rw [← hz]; exact hlt
        have : z < 4 := by exact_mod_cast this
        omega
    · refine ⟨z, ?_, hlo, hhi⟩
      show (ForwardMovement s).movementNumber = _
      rw [ForwardMovement_movementNumber, if_neg hlt, hz]
  · by_cases hgt : s.movementNumber > -4
    · refine ⟨z - 1, ?_, ?_, by omega⟩
      · show (BackwardMovement s).movementNumber = _
        rw [BackwardMovement_movementNumber, if_pos hgt, hz]
        push_cast
        rfl
      · have : (-4 : ℚ) < (z : ℚ) := by rw [← hz]; exact hgt
        have : -4 < z := by exact_mod_cast this
        omega
    · refine ⟨z, ?_, hlo, hhi⟩
      show (BackwardMovement s).movementNumber = _
      rw [BackwardMovement_movementNumber, if_neg hgt, hz]
  · exact ⟨0, by simp [step, StopMovement], by omega, by omega⟩
  · exact ⟨4, by simp [step, FullForward], by omega, by omega⟩
  · exact ⟨-4, by simp [step, FullBackward], by omega, by omega⟩
  · exact ⟨z, by simp [step, Tick_movementNumber, hz], hlo, hhi⟩

/-- A finite sequence of events keeps the level an integer between -4 and 4. -/
theorem LevelInRange_run (events : List Event) :
    ∀ s : AMovementCharacter, LevelInRange s → LevelInRange (run s events) := by
  induction events with
  | nil => intro s h; exact h
  | cons e es ih => intro s h; rw [run_cons]; exact ih _ (LevelInRange_step s e h)

/-! ## The tick, branch by branch -/

/-- Case 1 (lines 179-190): level positive, last level not negative. -/
theorem Tick_forward (s : AMovementCharacter) (hl : s.movementNumber > 0)
    (hp : s.lastMovementNumber ≥ 0) :
    Tick s =
      ({ s with
          movementMultiplier :=
            if s.movementMultiplier < s.movementNumber then
              s.movementMultiplier + (1 / 100) * s.movementNumber
            else if s.movementMultiplier > s.movementNumber then s.movementMultiplier - 1 / 100
            else s.movementMultiplier
          lastMovementNumber := s.movementNumber },
        [EngineCall.SetMaxWalkSpeed (s.startingWalkSpeed *
            (if s.movementMultiplier < s.movementNumber then
              s.movementMultiplier + (1 / 100) * s.movementNumber
            else if s.movementMultiplier > s.movementNumber then s.movementMultiplier - 1 / 100
            else s.movementMultiplier)),
          EngineCall.AddMovementInput 1]) := by
  unfold Tick MoveCharacter
  rw [if_pos ⟨hl, hp⟩]
  rcases lt_trichotomy s.movementMultiplier s.movementNumber with h | h | h
  · rw [if_pos ⟨ne_of_lt h, h⟩, if_pos h]
  · have h1 : ¬ (s.movementMultiplier ≠ s.movementNumber ∧
        s.movementNumber > s.movementMultiplier) := fun c => c.1 h
    have h2 : ¬ (s.movementNumber ≠ s.movementMultiplier ∧
        s.movementNumber < s.movementMultiplier) := fun c => c.1 h.symm
    rw [if_neg h1, if_neg h2, if_neg (by rw [h]; exact lt_irrefl _),
      if_neg (by rw [h]; exact lt_irrefl _)]
  · have h1 : ¬ (s.movementMultiplier ≠ s.movementNumber ∧
        s.movementNumber > s.movementMultiplier) := fun c => lt_asymm h c.2
    rw [if_neg h1, if_pos ⟨ne_of_lt h, h⟩, if_neg (lt_asymm h), if_pos h]

/-- Case 2 (lines 191-197), multiplier positive: level positive, last level negative. -/
theorem Tick_forward_unwinding (s : AMovementCharacter) (hl : s.movementNumber > 0)
    (hp : s.lastMovementNumber < 0) (hm : s.movementMultiplier > 0) :
    Tick s =
      ({ s with movementMultiplier := s.movementMultiplier - (1 / 100) * s.movementNumber },
        [EngineCall.SetMaxWalkSpeed (s.startingWalkSpeed *
            (s.movementMultiplier - (1 / 100) * s.movementNumber)),
          EngineCall.AddMovementInput (-1)]) := by
  unfold Tick MoveCharacter
  rw [if_neg (fun c => not_le_of_lt hp c.2), if_pos ⟨hl, hp⟩, if_pos hm]

/-- Case 2 (lines 198-200), multiplier not positive. -/
theorem Tick_forward_flip (s : AMovementCharacter) (hl : s.movementNumber > 0)
    (hp : s.lastMovementNumber < 0) (hm : s.movementMultiplier ≤ 0) :
    Tick s = ({ s with lastMovementNumber := s.movementNumber }, []) := by
  unfold Tick MoveCharacter
  rw [if_neg (fun c => not_le_of_lt hp c.2), if_pos ⟨hl, hp⟩, if_neg (not_lt_of_le hm)]

/-- Case 3 (lines 202-213): level negative, last level not positive. -/
theorem Tick_backward (s : AMovementCharacter) (hl : s.movementNumber < 0)
    (hp : s.lastMovementNumber ≤ 0) :
    Tick s =
      ({ s with
          movementMultiplier :=
            if s.movementMultiplier < -s.movementNumber then
              s.movementMultiplier - (1 / 100) * s.movementNumber
            else if s.movementMultiplier > -s.movementNumber then s.movementMultiplier - 1 / 100
            else s.movementMultiplier
          lastMovementNumber := s.movementNumber },
        [EngineCall.SetMaxWalkSpeed (s.startingWalkSpeed *
            (if s.movementMultiplier < -s.movementNumber then
              s.movementMultiplier - (1 / 100) * s.movementNumber
            else if s.movementMultiplier > -s.movementNumber then s.movementMultiplier - 1 / 100
            else s.movementMultiplier)),
          EngineCall.AddMovementInput (-1)]) := by
  have hn : s.movementNumber * (-1) = -s.movementNumber := by ring
  have hne : s.movementNumber ≠ -s.movementNumber := by
    intro c
    linarith
  unfold Tick MoveCharacter
  rw [if_neg (fun c => lt_asymm hl c.1), if_neg (fun c => lt_asymm hl c.1), if_pos ⟨hl, hp⟩, hn]
  rcases lt_trichotomy s.movementMultiplier (-s.movementNumber) with h | h | h
  · rw [if_pos ⟨ne_of_lt h, h⟩, if_pos h]
  · have h1 : ¬ (s.movementMultiplier ≠ -s.movementNumber ∧
        -s.movementNumber > s.movementMultiplier) := fun c => c.1 h
    have h2 : ¬ (s.movementNumber ≠ -s.movementNumber ∧
        -s.movementNumber < s.movementMultiplier) := fun c => ne_of_lt c.2 h.symm
    rw [if_neg h1, if_neg h2, if_neg (by rw [h]; exact lt_irrefl _),
      if_neg (by rw [h]; exact lt_irrefl _)]
  · have h1 : ¬ (s.movementMultiplier ≠ -s.movementNumber ∧
        -s.movementNumber > s.movementMultiplier) := fun c => lt_asymm h c.2
    rw [if_neg h1, if_pos ⟨hne, h⟩, if_neg (lt_asymm h), if_pos h]

/-- Case 4 (lines 214-220), multiplier positive: level negative, last level positive. -/
theorem Tick_backward_unwinding (s : AMovementCharacter) (hl : s.movementNumber < 0)
    (hp : s.lastMovementNumber > 0) (hm : s.movementMultiplier > 0) :
    Tick s =
      ({ s with movementMultiplier := s.movementMultiplier + (1 / 100) * s.movementNumber },
        [EngineCall.SetMaxWalkSpeed (s.startingWalkSpeed *
            (s.movementMultiplier + (1 / 100) * s.movementNumber)),
          EngineCall.AddMovementInput 1]) := by
  unfold Tick MoveCharacter
  rw [if_neg (fun c => lt_asymm hl c.1), if_neg (fun c => lt_asymm hl c.1),
    if_neg (fun c => not_le_of_lt hp c.2), if_pos ⟨hl, hp⟩, if_pos hm]

/-- Case 4 (lines 221-223), multiplier not positive. -/
theorem Tick_backward_flip (s : AMovementCharacter) (hl : s.movementNumber < 0)
    (hp : s.lastMovementNumber > 0) (hm : s.movementMultiplier ≤ 0) :
    Tick s = ({ s with lastMovementNumber := s.movementNumber }, []) := by
  unfold Tick MoveCharacter
  rw [if_neg (fun c => lt_asymm hl c.1), if_neg (fun c => lt_asymm hl c.1),
    if_neg (fun c => not_le_of_lt hp c.2), if_pos ⟨hl, hp⟩, if_neg (not_lt_of_le hm)]

/-- Case 5 (lines 225-237), multiplier positive: level zero. -/
theorem Tick_neutral_decay (s : AMovementCharacter) (hl : s.movementNumber = 0)
    (hm : s.movementMultiplier > 0) :
    Tick s =
      ({ s with movementMultiplier := s.movementMultiplier - 1 / 100 },
        EngineCall.SetMaxWalkSpeed (s.startingWalkSpeed * (s.movementMultiplier - 1 / 100)) ::
          (if s.lastMovementNumber > 0 then [EngineCall.AddMovementInput 1]
           else if s.lastMovementNumber < 0 then [EngineCall.AddMovementInput (-1)]
           else [])) := by
  have h0 : ¬ (s.movementNumber > 0) := by rw [hl]; exact lt_irrefl _
  have h1 : ¬ (s.movementNumber < 0) := by rw [hl]; exact lt_irrefl _
  have hm0 : s.movementMultiplier > s.movementNumber := by rw [hl]; exact hm
  unfold Tick MoveCharacter
  rw [if_neg (fun c => h0 c.1), if_neg (fun c => h0 c.1), if_neg (fun c => h1 c.1),
    if_neg (fun c => h1 c.1), if_pos hl, if_pos hm0]

/-- Case 5 (lines 238-240), multiplier not positive. -/
theorem Tick_neutral_rest (s : AMovementCharacter) (hl : s.movementNumber = 0)
    (hm : s.movementMultiplier ≤ 0) :
    Tick s = ({ s with lastMovementNumber := 0 }, []) := by
  have h0 : ¬ (s.movementNumber > 0) := by rw [hl]; exact lt_irrefl _
  have h1 : ¬ (s.movementNumber < 0) := by rw [hl]; exact lt_irrefl _
  have hm0 : ¬ (s.movementMultiplier > s.movementNumber) := by rw [hl]; exact not_lt_of_le hm
  unfold Tick MoveCharacter
  rw [if_neg (fun c => h0 c.1), if_neg (fun c => h0 c.1), if_neg (fun c => h1 c.1),
    if_neg (fun c => h1 c.1), if_pos hl, if_neg hm0]

/-- C1. Level bound: from the constructed object (level 0), after every finite
sequence of `ForwardMovement`, `BackwardMovement`, `StopMovement`, `FullForward`,
`FullBackward` and ticks, in any order, the level is an integer `z` with
`-4 ≤ z ≤ 4`. -/
theorem C1_level_bound (maxWalkSpeed : ℚ) (events : List Event) :
    ∃ z : ℤ, (run (construct maxWalkSpeed) events).movementNumber = (z : ℚ) ∧
      -4 ≤ z ∧ z ≤ 4 :=
  LevelInRange_run events (construct maxWalkSpeed) ⟨0, by simp [construct], by omega, by omega⟩

/-- C4. Direction reversal keeps the old direction: when level and lastLevel are
non-zero with opposite signs, a tick with multiplier > 0 issues exactly one
movement, in the direction of lastLevel (+1 if lastLevel > 0, -1 if
lastLevel < 0), and leaves lastLevel unchanged; a tick with multiplier ≤ 0 makes no
engine call at all (no movement, no max-speed write), leaves the multiplier
unchanged and sets lastLevel = level, and the tick after it (level unchanged)
issues exactly one movement, in the direction of level. -/
theorem C4_reversal_keeps_direction (s : AMovementCharacter)
    (hopp : (s.movementNumber > 0 ∧ s.lastMovementNumber < 0) ∨
      (s.movementNumber < 0 ∧ s.lastMovementNumber > 0)) :
    (s.movementMultiplier > 0 →
      movementInputs (Tick s).2 = [if s.lastMovementNumber > 0 then 1 else -1] ∧
      (Tick s).1.lastMovementNumber = s.lastMovementNumber) ∧
    (s.movementMultiplier ≤ 0 →
      (Tick s).2 = [] ∧
      (Tick s).1.movementMultiplier = s.movementMultiplier ∧
      (Tick s).1.lastMovementNumber = s.movementNumber ∧
      (Tick s).1.movementNumber = s.movementNumber ∧
      movementInputs (Tick (Tick s).1).2 = [if s.movementNumber > 0 then 1 else -1]) := by
  rcases hopp with ⟨hl, hp⟩ | ⟨hl, hp⟩
  · constructor
    · intro hm
      rw [Tick_forward_unwinding s hl hp hm, if_neg (lt_asymm hp)]
      exact ⟨rfl, rfl⟩
    · intro hm
      rw [Tick_forward_flip s hl hp hm]
      refine ⟨rfl, rfl, rfl, rfl, ?_⟩
      have hn := Tick_forward { s with lastMovementNumber := s.movementNumber } hl (le_of_lt hl)
      dsimp only at hn ⊢
      rw [hn, if_pos hl]
      rfl
  · constructor
    · intro hm
      rw [Tick_backward_unwinding s hl hp hm, if_pos hp]
      exact ⟨rfl, rfl⟩
    · intro hm
      rw [Tick_backward_flip s hl hp hm]
      refine ⟨rfl, rfl, rfl, rfl, ?_⟩
      have hn := Tick_backward { s with lastMovementNumber := s.movementNumber } hl (le_of_lt hl)
      dsimp only at hn ⊢
      rw [hn, if_neg (lt_asymm hl)]
      rfl

/-- C4 at level 3, lastLevel -2, base speed 600: with multiplier 1/2 the tick
still moves backward; with multiplier 0 it only records lastLevel = 3 and the
next tick moves forward. -/
theorem C4_reversal_keeps_direction_witness :
    (((⟨3, -2, 1 / 2, 600⟩ : AMovementCharacter).movementNumber > 0 ∧
        (⟨3, -2, 1 / 2, 600⟩ : AMovementCharacter).lastMovementNumber < 0) ∧
      (⟨3, -2, 1 / 2, 600⟩ : AMovementCharacter).movementMultiplier > 0 ∧
      movementInputs (Tick ⟨3, -2, 1 / 2, 600⟩).2 = [-1] ∧
      (Tick ⟨3, -2, 1 / 2, 600⟩).1.lastMovementNumber = -2) ∧
    ((⟨3, -2, 0, 600⟩ : AMovementCharacter).movementMultiplier ≤ 0 ∧
      (Tick ⟨3, -2, 0, 600⟩).2 = [] ∧
      (Tick ⟨3, -2, 0, 600⟩).1.lastMovementNumber = 3 ∧
      movementInputs (Tick (Tick ⟨3, -2, 0, 600⟩).1).2 = [1]) := by
  have ha := (C4_reversal_keeps_direction ⟨3, -2, 1 / 2, 600⟩
    (Or.inl ⟨by norm_num, by norm_num⟩)).1 (by norm_num)
  have hb := (C4_reversal_keeps_direction ⟨3, -2, 0, 600⟩
    (Or.inl ⟨by norm_num, by norm_num⟩)).2 (by norm_num)
  refine ⟨⟨⟨by norm_num, by norm_num⟩, by norm_num, ?_, ha.2⟩, ⟨by norm_num, hb.1, hb.2.2.1, ?_⟩⟩
  · rw [ha.1]; norm_num
  · rw [hb.2.2.2.2]; norm_num

/-- Mirroring the calls keeps the max-speed writes. -/
theorem maxWalkSpeedWrites_map_mirrorCall (cs : List EngineCall) :
    maxWalkSpeedWrites (cs.map mirrorCall) = maxWalkSpeedWrites cs := by
  induction cs with
  | nil => rfl
  | cons c cs ih => cases c <;> simp [mirrorCall, maxWalkSpeedWrites, ih]

/-- Mirroring the calls negates every movement scale. -/
theorem movementInputs_map_mirrorCall (cs : List EngineCall) :
    movementInputs (cs.map mirrorCall) = (movementInputs cs).map (fun scale => -scale) := by
  induction cs with
  | nil => rfl
  | cons c cs ih => cases c <;> simp [mirrorCall, movementInputs, ih]

/-- A tick from the sign-negated object is the sign-negation of the tick. -/
theorem Tick_mirror (s : AMovementCharacter) :
    Tick (mirror s) = (mirror (Tick s).1, (Tick s).2.map mirrorCall) := by
  rcases lt_trichotomy s.movementNumber 0 with hl | hl | hl
  · have hl' : (mirror s).movementNumber > 0 := by simp only [mirror]; linarith
    rcases le_or_lt s.lastMovementNumber 0 with hp | hp
    · have hp' : (mirror s).lastMovementNumber ≥ 0 := by simp only [mirror]; linarith
      rw [Tick_backward s hl hp, Tick_forward (mirror s) hl' hp']
      simp only [mirror, List.map, mirrorCall, neg_neg, mul_neg, sub_eq_add_neg]
    · have hp' : (mirror s).lastMovementNumber < 0 := by simp only [mirror]; linarith
      rcases lt_or_le 0 s.movementMultiplier with hm | hm
      · rw [Tick_backward_unwinding s hl hp hm, Tick_forward_unwinding (mirror s) hl' hp' hm]
        simp only [mirror, List.map, mirrorCall, neg_neg, mul_neg, sub_eq_add_neg]
      · rw [Tick_backward_flip s hl hp hm, Tick_forward_flip (mirror s) hl' hp' hm]
        simp [mirror]
  · have hl' : (mirror s).movementNumber = 0 := by simp only [mirror]; linarith
    rcases lt_or_le 0 s.movementMultiplier with hm | hm
    · rw [Tick_neutral_decay s hl hm, Tick_neutral_decay (mirror s) hl' hm]
      rcases lt_trichotomy s.lastMovementNumber 0 with hp | hp | hp
      · simp [mirror, mirrorCall, hp, hl, lt_asymm hp]
      · simp [mirror, mirrorCall, hp, hl]
      · simp [mirror, mirrorCall, hp, hl, lt_asymm hp]
    · rw [Tick_neutral_rest s hl hm, Tick_neutral_rest (mirror s) hl' hm]
      simp [mirror]
  · have hl' : (mirror s).movementNumber < 0 := by simp only [mirror]; linarith
    rcases le_or_lt 0 s.lastMovementNumber with hp | hp
    · have hp' : (mirror s).lastMovementNumber ≤ 0 := by simp only [mirror]; linarith
      rw [Tick_forward s hl hp, Tick_backward (mirror s) hl' hp']
      simp only [mirror, List.map, mirrorCall, neg_neg, mul_neg, sub_eq_add_neg]
    · have hp' : (mirror s).lastMovementNumber > 0 := by simp only [mirror]; linarith
      rcases lt_or_le 0 s.movementMultiplier with hm | hm
      · rw [Tick_forward_unwinding s hl hp hm, Tick_backward_unwinding (mirror s) hl' hp' hm]
        simp only [mirror, List.map, mirrorCall, neg_neg, mul_neg, sub_eq_add_neg]
      · rw [Tick_forward_flip s hl hp hm, Tick_backward_flip (mirror s) hl' hp' hm]
        simp [mirror]

/-- C7. Backward mirrors forward: for every object, a tick from the sign-negated
object (level and lastLevel negated, multiplier and base speed kept) gives the
sign-negation of the object a tick gives from the original one and the same
engine calls with every movement scale negated; so it gives the same updated
multiplier, the same max-speed writes (or the same absence of one), the negated
updated lastLevel, and the opposite movement command (forward swapped with
backward, none with none). -/
theorem C7_backward_mirrors_forward (s : AMovementCharacter) :
    Tick (mirror s) = (mirror (Tick s).1, (Tick s).2.map mirrorCall) ∧
    (Tick (mirror s)).1.movementMultiplier = (Tick s).1.movementMultiplier ∧
    maxWalkSpeedWrites (Tick (mirror s)).2 = maxWalkSpeedWrites (Tick s).2 ∧
    (Tick (mirror s)).1.lastMovementNumber = -(Tick s).1.lastMovementNumber ∧
    movementInputs (Tick (mirror s)).2 =
      (movementInputs (Tick s).2).map (fun scale => -scale) := by
  rw [Tick_mirror s]
  exact ⟨rfl, rfl, maxWalkSpeedWrites_map_mirrorCall _, rfl, movementInputs_map_mirrorCall _⟩

/-- C8, as stated, fails at the object right after `FullBackward` from rest
(level -4, lastLevel 0, multiplier 0, base speed 600; case 3, multiplier below
the magnitude 4 of the level): the tick sets the multiplier to 0.04, which is
not multiplier + 0.01 * level = -0.04, is not a decrease and is not negative. -/
theorem C8_counterexample :
    (FullBackward (construct 600)).movementNumber < 0 ∧
    (FullBackward (construct 600)).lastMovementNumber ≤ 0 ∧
    (FullBackward (construct 600)).movementMultiplier <
      -(FullBackward (construct 600)).movementNumber ∧
    (Tick (FullBackward (construct 600))).1.movementMultiplier = 4 / 100 ∧
    (Tick (FullBackward (construct 600))).1.movementMultiplier ≠
      (FullBackward (construct 600)).movementMultiplier +
        (1 / 100) * (FullBackward (construct 600)).movementNumber ∧
    ¬ ((Tick (FullBackward (construct 600))).1.movementMultiplier <
      (FullBackward (construct 600)).movementMultiplier) ∧
    ¬ ((Tick (FullBackward (construct 600))).1.movementMultiplier < 0) := by
  have h : (Tick (FullBackward (construct 600))).1.movementMultiplier = 4 / 100 := by
    rw [Tick_backward (FullBackward (construct 600)) (by norm_num [FullBackward])
      (by norm_num [FullBackward, construct])]
    norm_num [FullBackward, construct]
  rw [h]
  norm_num [FullBackward, construct]

/-- C8, amended. Sustained-or-newly-backward tick (case 3): with level < 0,
lastLevel ≤ 0 and the multiplier below the magnitude of the level, one tick
changes the multiplier by -0.01 * level = 0.01 * |level|, so the multiplier
increases (moves in the positive direction); the multiplier is a magnitude, and
when it was not negative before the tick it is positive after it. -/
theorem C8_backward_tick_raises_multiplier (s : AMovementCharacter)
    (hl : s.movementNumber < 0) (hp : s.lastMovementNumber ≤ 0)
    (hm : s.movementMultiplier < -s.movementNumber) :
    (Tick s).1.movementMultiplier = s.movementMultiplier - (1 / 100) * s.movementNumber ∧
    (Tick s).1.movementMultiplier = s.movementMultiplier + (1 / 100) * |s.movementNumber| ∧
    (Tick s).1.movementMultiplier > s.movementMultiplier ∧
    (s.movementMultiplier ≥ 0 → (Tick s).1.movementMultiplier > 0) := by
  rw [Tick_backward s hl hp]
  dsimp only
  rw [if_pos hm, abs_of_neg hl]
  refine ⟨rfl, by ring, by linarith, fun h => by linarith⟩

/-- C8 amended at level -2, lastLevel 0, multiplier 1/2, base speed 600: the
tick raises the multiplier to 52/100. -/
theorem C8_backward_tick_raises_multiplier_witness :
    (⟨-2, 0, 1 / 2, 600⟩ : AMovementCharacter).movementNumber < 0 ∧
    (⟨-2, 0, 1 / 2, 600⟩ : AMovementCharacter).lastMovementNumber ≤ 0 ∧
    (⟨-2, 0, 1 / 2, 600⟩ : AMovementCharacter).movementMultiplier <
      -(⟨-2, 0, 1 / 2, 600⟩ : AMovementCharacter).movementNumber ∧
    (Tick ⟨-2, 0, 1 / 2, 600⟩).1.movementMultiplier = 52 / 100 ∧
    (Tick ⟨-2, 0, 1 / 2, 600⟩).1.movementMultiplier > 1 / 2 := by
  have h := C8_backward_tick_raises_multiplier ⟨-2, 0, 1 / 2, 600⟩ (by norm_num) (by norm_num)
    (by norm_num)
  refine ⟨by norm_num, by norm_num, by norm_num, ?_, h.2.2.1⟩
  rw [h.1]
  norm_num

/-- The engine calls of a tick have one of four shapes: none; a max-speed write
alone; a max-speed write followed by one movement input of scale 1 or of scale
-1.  The value written is always baseSpeed * (updated multiplier). -/
theorem Tick_calls_shape (s : AMovementCharacter) :
    (Tick s).2 = [] ∨
    (Tick s).2 =
      [EngineCall.SetMaxWalkSpeed (s.startingWalkSpeed * (Tick s).1.movementMultiplier)] ∨
    (Tick s).2 =
      [EngineCall.SetMaxWalkSpeed (s.startingWalkSpeed * (Tick s).1.movementMultiplier),
        EngineCall.AddMovementInput 1] ∨
    (Tick s).2 =
      [EngineCall.SetMaxWalkSpeed (s.startingWalkSpeed * (Tick s).1.movementMultiplier),
        EngineCall.AddMovementInput (-1)] := by
  rcases lt_trichotomy s.movementNumber 0 with hl | hl | hl
  · rcases le_or_lt s.lastMovementNumber 0 with hp | hp
    · rw [Tick_backward s hl hp]
      exact Or.inr (Or.inr (Or.inr rfl))
    · rcases lt_or_le 0 s.movementMultiplier with hm | hm
      · rw [Tick_backward_unwinding s hl hp hm]
        exact Or.inr (Or.inr (Or.inl rfl))
      · rw [Tick_backward_flip s hl hp hm]
        exact Or.inl rfl
  · rcases lt_or_le 0 s.movementMultiplier with hm | hm
    · rw [Tick_neutral_decay s hl hm]
      dsimp only
      split_ifs
      · exact Or.inr (Or.inr (Or.inl rfl))
      · exact Or.inr (Or.inr (Or.inr rfl))
      · exact Or.inr (Or.inl rfl)
    · rw [Tick_neutral_rest s hl hm]
      exact Or.inl rfl
  · rcases le_or_lt 0 s.lastMovementNumber with hp | hp
    · rw [Tick_forward s hl hp]
      exact Or.inr (Or.inr (Or.inl rfl))
    · rcases lt_or_le 0 s.movementMultiplier with hm | hm
      · rw [Tick_forward_unwinding s hl hp hm]
        exact Or.inr (Or.inr (Or.inr rfl))
      · rw [Tick_forward_flip s hl hp hm]
        exact Or.inl rfl

/-- C9. Max-speed write accompanies every movement command: for every object a
tick issues either no movement command or exactly one, of scale +1 or -1;
whenever it issues one it also writes max speed, once, with the value
baseSpeed * (the multiplier as updated by that tick); and in the branches that
issue no movement because the multiplier is ≤ 0 (case 2: level > 0, lastLevel < 0;
case 4: level < 0, lastLevel > 0; case 5: level = 0) the tick makes no engine
call, so writes no max speed, and leaves the multiplier unchanged. -/
theorem C9_max_speed_with_movement (s : AMovementCharacter) :
    (movementInputs (Tick s).2 = [] ∨ movementInputs (Tick s).2 = [1] ∨
      movementInputs (Tick s).2 = [-1]) ∧
    (movementInputs (Tick s).2 ≠ [] →
      maxWalkSpeedWrites (Tick s).2 =
        [s.startingWalkSpeed * (Tick s).1.movementMultiplier]) ∧
    (((s.movementNumber > 0 ∧ s.lastMovementNumber < 0) ∨
        (s.movementNumber < 0 ∧ s.lastMovementNumber > 0) ∨ s.movementNumber = 0) →
      s.movementMultiplier ≤ 0 →
      (Tick s).2 = [] ∧ maxWalkSpeedWrites (Tick s).2 = [] ∧
        (Tick s).1.movementMultiplier = s.movementMultiplier) := by
  refine ⟨?_, ?_, ?_⟩
  · rcases Tick_calls_shape s with h | h | h | h <;> rw [h]
    · exact Or.inl rfl
    · exact Or.inl rfl
    · exact Or.inr (Or.inl rfl)
    · exact Or.inr (Or.inr rfl)
  · intro hne
    rcases Tick_calls_shape s with h | h | h | h
    · rw [h] at hne
      exact absurd rfl hne
    · rw [h] at hne
      exact absurd rfl hne
    · rw [h]
      rfl
    · rw [h]
      rfl
  · intro hcase hm
    rcases hcase with ⟨hl, hp⟩ | ⟨hl, hp⟩ | hl
    · rw [Tick_forward_flip s hl hp hm]
      exact ⟨rfl, rfl, rfl⟩
    · rw [Tick_backward_flip s hl hp hm]
      exact ⟨rfl, rfl, rfl⟩
    · rw [Tick_neutral_rest s hl hm]
      exact ⟨rfl, rfl, rfl⟩

/-- C9 at level 2, lastLevel -1, base speed 600: with multiplier 0 the tick makes
no engine call and keeps the multiplier; with multiplier 1/2 it moves backward and
writes max speed 600 * 48/100 = 288. -/
theorem C9_max_speed_with_movement_witness :
    (((⟨2, -1, 0, 600⟩ : AMovementCharacter).movementNumber > 0 ∧
        (⟨2, -1, 0, 600⟩ : AMovementCharacter).lastMovementNumber < 0) ∧
      (⟨2, -1, 0, 600⟩ : AMovementCharacter).movementMultiplier ≤ 0 ∧
      (Tick ⟨2, -1, 0, 600⟩).2 = [] ∧
      (Tick ⟨2, -1, 0, 600⟩).1.movementMultiplier = 0) ∧
    (movementInputs (Tick ⟨2, -1, 1 / 2, 600⟩).2 = [-1] ∧
      maxWalkSpeedWrites (Tick ⟨2, -1, 1 / 2, 600⟩).2 = [288]) := by
  have ha := (C9_max_speed_with_movement ⟨2, -1, 0, 600⟩).2.2
    (Or.inl ⟨by norm_num, by norm_num⟩) (by norm_num)
  have hmv : movementInputs (Tick ⟨2, -1, 1 / 2, 600⟩).2 = [-1] := by
    rw [Tick_forward_unwinding ⟨2, -1, 1 / 2, 600⟩ (by norm_num) (by norm_num) (by norm_num)]
    rfl
  have hb := (C9_max_speed_with_movement ⟨2, -1, 1 / 2, 600⟩).2.1 (by rw [hmv]; simp)
  refine ⟨⟨⟨by norm_num, by norm_num⟩, by norm_num, ha.1, ha.2.2⟩, hmv, ?_⟩
  rw [hb, Tick_forward_unwinding ⟨2, -1, 1 / 2, 600⟩ (by norm_num) (by norm_num) (by norm_num)]
  norm_num

/-- C10. Effect of the five input commands on the level: `ForwardMovement` sets
level to level + 1 if level < 4 and otherwise leaves it unchanged;
`BackwardMovement` sets level to level - 1 if level > -4 and otherwise leaves it
unchanged; `StopMovement` sets level to 0; `FullForward` sets it to 4;
`FullBackward` sets it to -4.  Each command is a total function of the object:
it has a result for every input state. -/
theorem C10_input_commands (s : AMovementCharacter) :
    (ForwardMovement s).movementNumber =
        (if s.movementNumber < 4 then s.movementNumber + 1 else s.movementNumber) ∧
      (BackwardMovement s).movementNumber =
        (if s.movementNumber > -4 then s.movementNumber - 1 else s.movementNumber) ∧
      (StopMovement s).movementNumber = 0 ∧
      (FullForward s).movementNumber = 4 ∧
      (FullBackward s).movementNumber = -4 :=
  ⟨ForwardMovement_movementNumber s, BackwardMovement_movementNumber s, rfl, rfl, rfl⟩

/-- A tick never writes `startingWalkSpeed`. -/
theorem Tick_startingWalkSpeed (s : AMovementCharacter) :
    (Tick s).1.startingWalkSpeed = s.startingWalkSpeed := by
  unfold Tick MoveCharacter
  split_ifs <;> rfl

/-- C11. Frame conditions: each of the five input commands leaves lastLevel, the
multiplier and baseSpeed unchanged and makes no engine call (no movement command,
no max-speed write); every tick leaves level and baseSpeed unchanged. -/
theorem C11_frame_conditions (s : AMovementCharacter) :
    (∀ e : Event, e ≠ Event.Tick →
      (deliver s e).1 = step s e ∧
      (step s e).lastMovementNumber = s.lastMovementNumber ∧
      (step s e).movementMultiplier = s.movementMultiplier ∧
      (step s e).startingWalkSpeed = s.startingWalkSpeed ∧
      (deliver s e).2 = [] ∧
      movementInputs (deliver s e).2 = [] ∧
      maxWalkSpeedWrites (deliver s e).2 = []) ∧
    (Tick s).1.movementNumber = s.movementNumber ∧
    (Tick s).1.startingWalkSpeed = s.startingWalkSpeed := by
  refine ⟨?_, Tick_movementNumber s, Tick_startingWalkSpeed s⟩
  intro e he
  cases e
  · refine ⟨rfl, ?_, ?_, ?_, rfl, rfl, rfl⟩ <;>
      (simp only [step]; unfold ForwardMovement; split_ifs <;> rfl)
  · refine ⟨rfl, ?_, ?_, ?_, rfl, rfl, rfl⟩ <;>
      (simp only [step]; unfold BackwardMovement; split_ifs <;> rfl)
  · exact ⟨rfl, rfl, rfl, rfl, rfl, rfl, rfl⟩
  · exact ⟨rfl, rfl, rfl, rfl, rfl, rfl, rfl⟩
  · exact ⟨rfl, rfl, rfl, rfl, rfl, rfl, rfl⟩
  · exact absurd rfl he

/-- C11 at level 3, lastLevel -2, multiplier 1/2, base speed 600, for
`ForwardMovement`: the level becomes 4, the other three members are kept and no
engine call is made. -/
theorem C11_frame_conditions_witness :
    Event.ForwardMovement ≠ Event.Tick ∧
    step ⟨3, -2, 1 / 2, 600⟩ Event.ForwardMovement = ⟨4, -2, 1 / 2, 600⟩ ∧
    (deliver ⟨3, -2, 1 / 2, 600⟩ Event.ForwardMovement).2 = [] := by
  have h := (C11_frame_conditions ⟨3, -2, 1 / 2, 600⟩).1 Event.ForwardMovement (by decide)
  refine ⟨by decide, ?_, h.2.2.2.2.1⟩
  show ForwardMovement ⟨3, -2, 1 / 2, 600⟩ = _
  unfold ForwardMovement
  norm_num

/-- C12, as stated, fails at level -4, lastLevel 4, multiplier 2, base speed 600
(case 4 with the multiplier still positive): after the tick lastLevel is still 4,
not the level -4. -/
theorem C12_counterexample :
    (Tick ⟨-4, 4, 2, 600⟩).1.lastMovementNumber = 4 ∧
    (Tick ⟨-4, 4, 2, 600⟩).1.movementNumber = -4 ∧
    (Tick ⟨-4, 4, 2, 600⟩).1.lastMovementNumber ≠ (Tick ⟨-4, 4, 2, 600⟩).1.movementNumber := by
  rw [Tick_backward_unwinding ⟨-4, 4, 2, 600⟩ (by norm_num) (by norm_num) (by norm_num)]
  norm_num

/-- C12, amended. After one tick lastLevel equals level when the tick takes case 1
(level > 0, lastLevel ≥ 0) or case 3 (level < 0, lastLevel ≤ 0), or when the
multiplier is ≤ 0; in every other state (cases 2, 4 and 5 with the multiplier
> 0) the tick leaves lastLevel unchanged. -/
theorem C12_lastLevel_after_tick (s : AMovementCharacter) :
    (((s.movementNumber > 0 ∧ s.lastMovementNumber ≥ 0) ∨
        (s.movementNumber < 0 ∧ s.lastMovementNumber ≤ 0) ∨ s.movementMultiplier ≤ 0) →
      (Tick s).1.lastMovementNumber = (Tick s).1.movementNumber) ∧
    (¬ ((s.movementNumber > 0 ∧ s.lastMovementNumber ≥ 0) ∨
        (s.movementNumber < 0 ∧ s.lastMovementNumber ≤ 0) ∨ s.movementMultiplier ≤ 0) →
      (Tick s).1.lastMovementNumber = s.lastMovementNumber) := by
  rw [Tick_movementNumber]
  rcases lt_trichotomy s.movementNumber 0 with hl | hl | hl
  · rcases le_or_lt s.lastMovementNumber 0 with hp | hp
    · rw [Tick_backward s hl hp]
      exact ⟨fun _ => rfl, fun hn => absurd (Or.inr (Or.inl ⟨hl, hp⟩)) hn⟩
    · rcases lt_or_le 0 s.movementMultiplier with hm | hm
      · rw [Tick_backward_unwinding s hl hp hm]
        refine ⟨fun h => ?_, fun _ => rfl⟩
        rcases h with ⟨h1, _⟩ | ⟨_, h2⟩ | h3
        · exact absurd h1 (lt_asymm hl)
        · exact absurd hp (not_lt_of_le h2)
        · exact absurd hm (not_lt_of_le h3)
      · rw [Tick_backward_flip s hl hp hm]
        exact ⟨fun _ => rfl, fun hn => absurd (Or.inr (Or.inr hm)) hn⟩
  · rcases lt_or_le 0 s.movementMultiplier with hm | hm
    · rw [Tick_neutral_decay s hl hm]
      refine ⟨fun h => ?_, fun _ => rfl⟩
      rcases h with ⟨h1, _⟩ | ⟨h1, _⟩ | h3
      · exact absurd hl (ne_of_gt h1)
      · exact absurd hl (ne_of_lt h1)
      · exact absurd hm (not_lt_of_le h3)
    · rw [Tick_neutral_rest s hl hm]
      exact ⟨fun _ => hl.symm, fun hn => absurd (Or.inr (Or.inr hm)) hn⟩
  · rcases le_or_lt 0 s.lastMovementNumber with hp | hp
    · rw [Tick_forward s hl hp]
      exact ⟨fun _ => rfl, fun hn => absurd (Or.inl ⟨hl, hp⟩) hn⟩
    · rcases lt_or_le 0 s.movementMultiplier with hm | hm
      · rw [Tick_forward_unwinding s hl hp hm]
        refine ⟨fun h => ?_, fun _ => rfl⟩
        rcases h with ⟨_, h2⟩ | ⟨h1, _⟩ | h3
        · exact absurd hp (not_lt_of_le h2)
        · exact absurd h1 (lt_asymm hl)
        · exact absurd hm (not_lt_of_le h3)
      · rw [Tick_forward_flip s hl hp hm]
        exact ⟨fun _ => rfl, fun hn => absurd (Or.inr (Or.inr hm)) hn⟩

/-- C12 amended at level 2, base speed 600: from lastLevel 1, multiplier 3 (case 1)
the tick sets lastLevel to 2; from lastLevel -1, multiplier 1/2 (case 2, still
unwinding) it leaves lastLevel at -1. -/
theorem C12_lastLevel_after_tick_witness :
    (((⟨2, 1, 3, 600⟩ : AMovementCharacter).movementNumber > 0 ∧
        (⟨2, 1, 3, 600⟩ : AMovementCharacter).lastMovementNumber ≥ 0) ∧
      (Tick ⟨2, 1, 3, 600⟩).1.lastMovementNumber = (Tick ⟨2, 1, 3, 600⟩).1.movementNumber) ∧
    (¬ (((⟨2, -1, 1 / 2, 600⟩ : AMovementCharacter).movementNumber > 0 ∧
          (⟨2, -1, 1 / 2, 600⟩ : AMovementCharacter).lastMovementNumber ≥ 0) ∨
        ((⟨2, -1, 1 / 2, 600⟩ : AMovementCharacter).movementNumber < 0 ∧
          (⟨2, -1, 1 / 2, 600⟩ : AMovementCharacter).lastMovementNumber ≤ 0) ∨
        (⟨2, -1, 1 / 2, 600⟩ : AMovementCharacter).movementMultiplier ≤ 0) ∧
      (Tick ⟨2, -1, 1 / 2, 600⟩).1.lastMovementNumber = -1) := by
  have h1 : (⟨2, 1, 3, 600⟩ : AMovementCharacter).movementNumber > 0 ∧
      (⟨2, 1, 3, 600⟩ : AMovementCharacter).lastMovementNumber ≥ 0 := by norm_num
  have h2 : ¬ (((⟨2, -1, 1 / 2, 600⟩ : AMovementCharacter).movementNumber > 0 ∧
        (⟨2, -1, 1 / 2, 600⟩ : AMovementCharacter).lastMovementNumber ≥ 0) ∨
      ((⟨2, -1, 1 / 2, 600⟩ : AMovementCharacter).movementNumber < 0 ∧
        (⟨2, -1, 1 / 2, 600⟩ : AMovementCharacter).lastMovementNumber ≤ 0) ∨
      (⟨2, -1, 1 / 2, 600⟩ : AMovementCharacter).movementMultiplier ≤ 0) := by norm_num
  exact ⟨⟨h1, (C12_lastLevel_after_tick ⟨2, 1, 3, 600⟩).1 (Or.inl h1)⟩,
    ⟨h2, (C12_lastLevel_after_tick ⟨2, -1, 1 / 2, 600⟩).2 h2⟩⟩

/-- A tick keeps `CommittedHasDirection`. -/
theorem CommittedHasDirection_Tick (s : AMovementCharacter) (h : CommittedHasDirection s) :
    CommittedHasDirection (Tick s).1 := by
  unfold CommittedHasDirection at h ⊢
  rcases lt_trichotomy s.movementNumber 0 with hl | hl | hl
  · rcases le_or_lt s.lastMovementNumber 0 with hp | hp
    · rw [Tick_backward s hl hp]
      exact fun _ => ne_of_lt hl
    · rcases lt_or_le 0 s.movementMultiplier with hm | hm
      · rw [Tick_backward_unwinding s hl hp hm]
        exact fun _ => ne_of_gt hp
      · rw [Tick_backward_flip s hl hp hm]
        exact fun hpos => absurd hpos (not_lt_of_le hm)
  · rcases lt_or_le 0 s.movementMultiplier with hm | hm
    · rw [Tick_neutral_decay s hl hm]
      exact fun _ => h hm
    · rw [Tick_neutral_rest s hl hm]
      exact fun hpos => absurd hpos (not_lt_of_le hm)
  · rcases le_or_lt 0 s.lastMovementNumber with hp | hp
    · rw [Tick_forward s hl hp]
      exact fun _ => ne_of_gt hl
    · rcases lt_or_le 0 s.movementMultiplier with hm | hm
      · rw [Tick_forward_unwinding s hl hp hm]
        exact fun _ => ne_of_lt hp
      · rw [Tick_forward_flip s hl hp hm]
        exact fun hpos => absurd hpos (not_lt_of_le hm)

/-- Every event keeps `CommittedHasDirection`. -/
theorem CommittedHasDirection_step (s : AMovementCharacter) (e : Event)
    (h : CommittedHasDirection s) : CommittedHasDirection (step s e) := by
  cases e
  · have h1 : step s Event.ForwardMovement =
        { s with movementNumber := (step s Event.ForwardMovement).movementNumber } := by
      simp only [step]; unfold ForwardMovement; split_ifs <;> rfl
    rw [h1]
    exact h
  · have h1 : step s Event.BackwardMovement =
        { s with movementNumber := (step s Event.BackwardMovement).movementNumber } := by
      simp only [step]; unfold BackwardMovement; split_ifs <;> rfl
    rw [h1]
    exact h
  · exact h
  · exact h
  · exact h
  · exact CommittedHasDirection_Tick s h

/-- A finite sequence of events keeps `CommittedHasDirection`. -/
theorem CommittedHasDirection_run (events : List Event) :
    ∀ s : AMovementCharacter, CommittedHasDirection s →
      CommittedHasDirection (run s events) := by
  induction events with
  | nil => intro s h; exact h
  | cons e es ih => intro s h; rw [run_cons]; exact ih _ (CommittedHasDirection_step s e h)

/-- A tick from an object with `CommittedHasDirection` that writes the max speed
also issues a movement. -/
theorem Tick_write_has_movement (s : AMovementCharacter) (h : CommittedHasDirection s)
    (hw : maxWalkSpeedWrites (Tick s).2 ≠ []) : movementInputs (Tick s).2 ≠ [] := by
  rcases lt_trichotomy s.movementNumber 0 with hl | hl | hl
  · rcases le_or_lt s.lastMovementNumber 0 with hp | hp
    · rw [Tick_backward s hl hp]
      simp [movementInputs]
    · rcases lt_or_le 0 s.movementMultiplier with hm | hm
      · rw [Tick_backward_unwinding s hl hp hm]
        simp [movementInputs]
      · rw [Tick_backward_flip s hl hp hm] at hw
        exact absurd rfl hw
  · rcases lt_or_le 0 s.movementMultiplier with hm | hm
    · rw [Tick_neutral_decay s hl hm]
      rcases lt_trichotomy s.lastMovementNumber 0 with hp | hp | hp
      · simp [movementInputs, hp, lt_asymm hp]
      · exact absurd hp (h hm)
      · simp [movementInputs, hp]
    · rw [Tick_neutral_rest s hl hm] at hw
      exact absurd rfl hw
  · rcases le_or_lt 0 s.lastMovementNumber with hp | hp
    · rw [Tick_forward s hl hp]
      simp [movementInputs]
    · rcases lt_or_le 0 s.movementMultiplier with hm | hm
      · rw [Tick_forward_unwinding s hl hp hm]
        simp [movementInputs]
      · rw [Tick_forward_flip s hl hp hm] at hw
        exact absurd rfl hw

/-- C15. A committed multiplier always has a direction: in every object reachable
from the constructed one by any interleaving of the five input commands and
ticks, multiplier > 0 implies lastLevel ≠ 0; so every tick from a reachable
object that writes max speed (the neutral-decay branch included) also issues a
movement command. -/
theorem C15_committed_multiplier_has_direction (maxWalkSpeed : ℚ) (events : List Event) :
    ((run (construct maxWalkSpeed) events).movementMultiplier > 0 →
      (run (construct maxWalkSpeed) events).lastMovementNumber ≠ 0) ∧
    (maxWalkSpeedWrites (Tick (run (construct maxWalkSpeed) events)).2 ≠ [] →
      movementInputs (Tick (run (construct maxWalkSpeed) events)).2 ≠ []) := by
  have h : CommittedHasDirection (run (construct maxWalkSpeed) events) :=
    CommittedHasDirection_run events (construct maxWalkSpeed)
      (fun hpos => absurd hpos (by simp [construct]))
  exact ⟨h, Tick_write_has_movement _ h⟩

/-- C15 after `ForwardMovement`, a tick and `StopMovement` from the constructed
object with base speed 600 (level 0, lastLevel 1, multiplier 1/100): the
multiplier is positive, lastLevel is not 0, and the neutral-decay tick writes the
max speed and issues a movement. -/
theorem C15_committed_multiplier_has_direction_witness :
    (run (construct 600) [Event.ForwardMovement, Event.Tick, Event.StopMovement]).movementMultiplier
      > 0 ∧
    (run (construct 600) [Event.ForwardMovement, Event.Tick, Event.StopMovement]).lastMovementNumber
      ≠ 0 ∧
    maxWalkSpeedWrites
      (Tick (run (construct 600) [Event.ForwardMovement, Event.Tick, Event.StopMovement])).2
      ≠ [] ∧
    movementInputs
      (Tick (run (construct 600) [Event.ForwardMovement, Event.Tick, Event.StopMovement])).2
      ≠ [] := by
  have hs : run (construct 600) [Event.ForwardMovement, Event.Tick, Event.StopMovement] =
      ⟨0, 1, 1 / 100, 600⟩ := by
    have h1 : step (construct 600) Event.ForwardMovement = ⟨1, 0, 0, 600⟩ := by
      simp only [step]; unfold ForwardMovement; norm_num [construct]
    have h2 : step ⟨1, 0, 0, 600⟩ Event.Tick = ⟨1, 1, 1 / 100, 600⟩ := by
      simp only [step]
      rw [Tick_forward ⟨1, 0, 0, 600⟩ (by norm_num) (by norm_num)]
      norm_num
    rw [run_cons, h1, run_cons, h2]
    rfl
  have hpos : (run (construct 600)
      [Event.ForwardMovement, Event.Tick, Event.StopMovement]).movementMultiplier > 0 := by
    rw [hs]; norm_num
  have hw : maxWalkSpeedWrites (Tick (run (construct 600)
      [Event.ForwardMovement, Event.Tick, Event.StopMovement])).2 ≠ [] := by
    rw [hs, Tick_neutral_decay ⟨0, 1, 1 / 100, 600⟩ rfl (by norm_num)]
    simp [maxWalkSpeedWrites]
  have h := C15_committed_multiplier_has_direction 600
    [Event.ForwardMovement, Event.Tick, Event.StopMovement]
  exact ⟨hpos, h.1 hpos, hw, h.2 hw⟩

namespace Binary32

/-- Dropping bits: a magnitude below `2 ^ (24 + k)` loses at most `k` bits. -/
theorem excessBits_le (fuel : Nat) : ∀ (a k : Nat), a < 2 ^ (24 + k) → excessBits fuel a ≤ k := by
  induction fuel with
  | zero => intro a k _; exact Nat.zero_le k
  | succ f ih =>
    intro a k ha
    unfold excessBits
    split_ifs with h
    · exact Nat.zero_le k
    · cases k with
      | zero => exact absurd ha h
      | succ j =>
        have h2 : a / 2 < 2 ^ (24 + j) := by
          rw [Nat.div_lt_iff_lt_mul (by norm_num)]
          calc a < 2 ^ (24 + (j + 1)) := ha
            _ = 2 ^ (24 + j) * 2 := by rw [← Nat.add_assoc, Nat.pow_succ]
        have := ih (a / 2) j h2
        omega

/-- Rounding a sum or difference whose magnitude is below 8 (below `2 ^ 152`
units) moves it by at most `2 ^ (-22)` (`2 ^ 127` units). -/
theorem roundNat_near (a : Nat) (ha : a < 2 ^ 152) :
    roundNat a 0 ≤ a + 2 ^ 127 ∧ a ≤ roundNat a 0 + 2 ^ 127 := by
  have hd : excessBits a a ≤ 128 := excessBits_le a a 128 (by simpa using ha)
  unfold roundNat
  simp only [Nat.zero_max, Nat.sub_zero]
  generalize excessBits a a = d at hd
  by_cases h0 : d = 0
  · rw [if_pos h0]
    exact ⟨Nat.le_add_right _ _, Nat.le_add_right _ _⟩
  · rw [if_neg h0]
    obtain ⟨e, rfl⟩ : ∃ e, d = e + 1 := ⟨d - 1, by omega⟩
    have he : 2 ^ e ≤ 2 ^ 127 := Nat.pow_le_pow_right (by norm_num) (by omega)
    have hp : 2 ^ (e + 1) = 2 * 2 ^ e := by rw [Nat.pow_succ, Nat.mul_comm]
    have hdm : 2 ^ (e + 1) * (a / 2 ^ (e + 1)) + a % 2 ^ (e + 1) = a := Nat.div_add_mod a _
    have hr : a % 2 ^ (e + 1) < 2 ^ (e + 1) := Nat.mod_lt _ (by positivity)
    simp only [Nat.add_sub_cancel]
    generalize a / 2 ^ (e + 1) = q at hdm ⊢
    generalize a % 2 ^ (e + 1) = r at hdm hr ⊢
    rw [hp] at hdm hr ⊢
    generalize 2 ^ e = H at he hdm hr ⊢
    split_ifs with hup
    · have hge : H ≤ r := by
        rcases hup with h | ⟨h, _⟩
        · exact Nat.le_of_lt h
        · exact Nat.le_of_eq h.symm
      constructor
      · nlinarith
      · nlinarith
    · have hle : r ≤ H := by
        by_contra hc
        exact hup (Or.inl (Nat.lt_of_not_le hc))
      constructor
      · nlinarith
      · nlinarith

/-- Rounding a sum or difference of magnitude below 8 moves it by at most
`2 ^ 127` units, for either sign. -/
theorem roundInt_near (n : ℤ) (hlo : -(2 ^ 152) < n) (hhi : n < 2 ^ 152) :
    n - 2 ^ 127 ≤ roundInt n 0 ∧ roundInt n 0 ≤ n + 2 ^ 127 := by
  have ha : n.natAbs < 2 ^ 152 := by
    have : (n.natAbs : ℤ) < 2 ^ 152 := by
      rw [Int.natCast_natAbs]
      exact abs_lt.mpr ⟨hlo, hhi⟩
    exact_mod_cast this
  obtain ⟨h1, h2⟩ := roundNat_near n.natAbs ha
  have h1' : ((roundNat n.natAbs 0 : Nat) : ℤ) ≤ (n.natAbs : ℤ) + 2 ^ 127 := by exact_mod_cast h1
  have h2' : (n.natAbs : ℤ) ≤ ((roundNat n.natAbs 0 : Nat) : ℤ) + 2 ^ 127 := by exact_mod_cast h2
  unfold roundInt
  split_ifs with hneg
  · have : (n.natAbs : ℤ) = -n := by
      rw [Int.natCast_natAbs]
      exact abs_of_neg hneg
    rw [this] at h1' h2'
    constructor <;> linarith
  · have : (n.natAbs : ℤ) = n := by
      rw [Int.natCast_natAbs]
      exact abs_of_nonneg (not_lt.mp hneg)
    rw [this] at h1' h2'
    constructor <;> linarith

/-- The conversion of integers keeps the order. -/
theorem ofInt32_lt (a b : ℤ) : ofInt32 a < ofInt32 b ↔ a < b := by
  unfold ofInt32
  exact mul_lt_mul_right (by positivity)

/-- The binary32 value of the integer 0 is 0. -/
theorem ofInt32_zero : ofInt32 0 = 0 := by
  unfold ofInt32
  simp

/-- The conversion of integers keeps the sign: positive. -/
theorem ofInt32_pos (a : ℤ) : 0 < ofInt32 a ↔ 0 < a := by
  have h := ofInt32_lt 0 a
  rwa [ofInt32_zero] at h

/-- The conversion of integers keeps the sign: negative. -/
theorem ofInt32_neg (a : ℤ) : ofInt32 a < 0 ↔ a < 0 := by
  have h := ofInt32_lt a 0
  rwa [ofInt32_zero] at h

/-- The conversion of integers is injective. -/
theorem ofInt32_inj (a b : ℤ) : ofInt32 a = ofInt32 b ↔ a = b := by
  unfold ofInt32
  exact mul_left_inj' (by positivity)

/-- The product `0.01f * level` is exact for the nine levels. -/
theorem mul32_hundredth32 (z : ℤ) (hlo : -4 ≤ z) (hhi : z ≤ 4) :
    mul32 hundredth32 (ofInt32 z) = z * hundredth32 := by
  interval_cases z <;> decide!

/-- The product `level * (-1)` is exact for the nine levels. -/
theorem mul32_neg_one (z : ℤ) (hlo : -4 ≤ z) (hhi : z ≤ 4) :
    mul32 (ofInt32 z) (ofInt32 (-1)) = ofInt32 (-z) := by
  interval_cases z <;> decide!

/-- The increment `level + 1` is exact for the levels below 4. -/
theorem add32_one (z : ℤ) (hlo : -4 ≤ z) (hhi : z < 4) :
    add32 (ofInt32 z) (ofInt32 1) = ofInt32 (z + 1) := by
  interval_cases z <;> decide!

/-- The decrement `level - 1` is exact for the levels above -4. -/
theorem sub32_one (z : ℤ) (hlo : -4 < z) (hhi : z ≤ 4) :
    sub32 (ofInt32 z) (ofInt32 1) = ofInt32 (z - 1) := by
  interval_cases z <;> decide!

/-- A tick never writes `movementNumber` (binary32). -/
theorem b32_Tick_movementNumber (s : AMovementCharacter) :
    (Tick s).1.movementNumber = s.movementNumber := by
  unfold Tick MoveCharacter
  split_ifs <;> rfl

/-- A tick never writes `startingWalkSpeed` (binary32). -/
theorem b32_Tick_startingWalkSpeed (s : AMovementCharacter) :
    (Tick s).1.startingWalkSpeed = s.startingWalkSpeed := by
  unfold Tick MoveCharacter
  split_ifs <;> rfl

/-- Unfolding `run` one event at a time (binary32). -/
theorem b32_run_cons (s : AMovementCharacter) (e : Event) (es : List Event) :
    run s (e :: es) = run (step s e) es := rfl

/-- One more tick after `n` ticks (binary32). -/
theorem b32_ticks_succ (n : Nat) :
    ∀ s : AMovementCharacter, ticks (n + 1) s = (Tick (ticks n s)).1 := by
  induction n with
  | zero => intro s; rfl
  | succ k ih => intro s; exact ih (Tick s).1

/-- Every event keeps the level one of the nine integer levels (binary32). -/
theorem b32_LevelInRange_step (s : AMovementCharacter) (e : Event) (h : LevelInRange s) :
    LevelInRange (step s e) := by
  obtain ⟨z, hz, hlo, hhi⟩ := h
  cases e
  · show LevelInRange (ForwardMovement s)
    unfold ForwardMovement
    split_ifs with hlt
    · rw [hz, ofInt32_lt] at hlt
      exact ⟨z + 1, by rw [hz]; exact add32_one z hlo hlt, by omega, by omega⟩
    · exact ⟨z, hz, hlo, hhi⟩
  · show LevelInRange (BackwardMovement s)
    unfold BackwardMovement
    split_ifs with hgt
    · rw [hz, gt_iff_lt, ofInt32_lt] at hgt
      exact ⟨z - 1, by rw [hz]; exact sub32_one z hgt hhi, by omega, by omega⟩
    · exact ⟨z, hz, hlo, hhi⟩
  · exact ⟨0, rfl, by omega, by omega⟩
  · exact ⟨4, rfl, by omega, by omega⟩
  · exact ⟨-4, rfl, by omega, by omega⟩
  · exact ⟨z, by show (Tick s).1.movementNumber = _; rw [b32_Tick_movementNumber, hz], hlo, hhi⟩

/-- Case 1 (lines 179-190) in binary32: level positive, last level not negative. -/
theorem b32_Tick_forward (s : AMovementCharacter) (hl : s.movementNumber > 0)
    (hp : s.lastMovementNumber ≥ 0) :
    Tick s =
      ({ s with
          movementMultiplier :=
            if s.movementMultiplier < s.movementNumber then
              add32 s.movementMultiplier (mul32 hundredth32 s.movementNumber)
            else if s.movementMultiplier > s.movementNumber then
              sub32 s.movementMultiplier hundredth32
            else s.movementMultiplier
          lastMovementNumber := s.movementNumber },
        [EngineCall.SetMaxWalkSpeed (mul32 s.startingWalkSpeed
            (if s.movementMultiplier < s.movementNumber then
              add32 s.movementMultiplier (mul32 hundredth32 s.movementNumber)
            else if s.movementMultiplier > s.movementNumber then
              sub32 s.movementMultiplier hundredth32
            else s.movementMultiplier)),
          EngineCall.AddMovementInput (ofInt32 1)]) := by
  unfold Tick MoveCharacter
  rw [if_pos ⟨hl, hp⟩]
  rcases lt_trichotomy s.movementMultiplier s.movementNumber with h | h | h
  · rw [if_pos ⟨ne_of_lt h, h⟩, if_pos h]
  · have h1 : ¬ (s.movementMultiplier ≠ s.movementNumber ∧
        s.movementNumber > s.movementMultiplier) := fun c => c.1 h
    have h2 : ¬ (s.movementNumber ≠ s.movementMultiplier ∧
        s.movementNumber < s.movementMultiplier) := fun c => c.1 h.symm
    rw [if_neg h1, if_neg h2, if_neg (by rw [h]; exact lt_irrefl _),
      if_neg (by rw [h]; exact lt_irrefl _)]
  · have h1 : ¬ (s.movementMultiplier ≠ s.movementNumber ∧
        s.movementNumber > s.movementMultiplier) := fun c => lt_asymm h c.2
    rw [if_neg h1, if_pos ⟨ne_of_lt h, h⟩, if_neg (lt_asymm h), if_pos h]

/-- Case 2 (lines 191-197) in binary32, multiplier positive. -/
theorem b32_Tick_forward_unwinding (s : AMovementCharacter) (hl : s.movementNumber > 0)
    (hp : s.lastMovementNumber < 0) (hm : s.movementMultiplier > 0) :
    Tick s =
      ({ s with movementMultiplier :=
            sub32 s.movementMultiplier (mul32 hundredth32 s.movementNumber) },
        [EngineCall.SetMaxWalkSpeed (mul32 s.startingWalkSpeed
            (sub32 s.movementMultiplier (mul32 hundredth32 s.movementNumber))),
          EngineCall.AddMovementInput (ofInt32 (-1))]) := by
  unfold Tick MoveCharacter
  rw [if_neg (fun c => not_le_of_lt hp c.2), if_pos ⟨hl, hp⟩, if_pos hm]

/-- Case 2 (lines 198-200) in binary32, multiplier not positive. -/
theorem b32_Tick_forward_flip (s : AMovementCharacter) (hl : s.movementNumber > 0)
    (hp : s.lastMovementNumber < 0) (hm : s.movementMultiplier ≤ 0) :
    Tick s = ({ s with lastMovementNumber := s.movementNumber }, []) := by
  unfold Tick MoveCharacter
  rw [if_neg (fun c => not_le_of_lt hp c.2), if_pos ⟨hl, hp⟩, if_neg (not_lt_of_le hm)]

/-- Case 3 (lines 202-213) in binary32: level negative, last level not positive;
`N` is the product `level * (-1)` and differs from the level. -/
theorem b32_Tick_backward (s : AMovementCharacter) (N : F32) (hl : s.movementNumber < 0)
    (hp : s.lastMovementNumber ≤ 0) (hN : mul32 s.movementNumber (ofInt32 (-1)) = N)
    (hne : s.movementNumber ≠ N) :
    Tick s =
      ({ s with
          movementMultiplier :=
            if s.movementMultiplier < N then
              sub32 s.movementMultiplier (mul32 hundredth32 s.movementNumber)
            else if s.movementMultiplier > N then sub32 s.movementMultiplier hundredth32
            else s.movementMultiplier
          lastMovementNumber := s.movementNumber },
        [EngineCall.SetMaxWalkSpeed (mul32 s.startingWalkSpeed
            (if s.movementMultiplier < N then
              sub32 s.movementMultiplier (mul32 hundredth32 s.movementNumber)
            else if s.movementMultiplier > N then sub32 s.movementMultiplier hundredth32
            else s.movementMultiplier)),
          EngineCall.AddMovementInput (ofInt32 (-1))]) := by
  unfold Tick MoveCharacter
  rw [if_neg (fun c => lt_asymm hl c.1), if_neg (fun c => lt_asymm hl c.1), if_pos ⟨hl, hp⟩, hN]
  rcases lt_trichotomy s.movementMultiplier N with h | h | h
  · rw [if_pos ⟨ne_of_lt h, h⟩, if_pos h]
  · have h1 : ¬ (s.movementMultiplier ≠ N ∧ N > s.movementMultiplier) := fun c => c.1 h
    have h2 : ¬ (s.movementNumber ≠ N ∧ N < s.movementMultiplier) :=
      fun c => ne_of_lt c.2 h.symm
    rw [if_neg h1, if_neg h2, if_neg (by rw [h]; exact lt_irrefl _),
      if_neg (by rw [h]; exact lt_irrefl _)]
  · have h1 : ¬ (s.movementMultiplier ≠ N ∧ N > s.movementMultiplier) :=
      fun c => lt_asymm h c.2
    rw [if_neg h1, if_pos ⟨hne, h⟩, if_neg (lt_asymm h), if_pos h]

/-- Case 4 (lines 214-220) in binary32, multiplier positive. -/
theorem b32_Tick_backward_unwinding (s : AMovementCharacter) (hl : s.movementNumber < 0)
    (hp : s.lastMovementNumber > 0) (hm : s.movementMultiplier > 0) :
    Tick s =
      ({ s with movementMultiplier :=
            add32 s.movementMultiplier (mul32 hundredth32 s.movementNumber) },
        [EngineCall.SetMaxWalkSpeed (mul32 s.startingWalkSpeed
            (add32 s.movementMultiplier (mul32 hundredth32 s.movementNumber))),
          EngineCall.AddMovementInput (ofInt32 1)]) := by
  unfold Tick MoveCharacter
  rw [if_neg (fun c => lt_asymm hl c.1), if_neg (fun c => lt_asymm hl c.1),
    if_neg (fun c => not_le_of_lt hp c.2), if_pos ⟨hl, hp⟩, if_pos hm]

/-- Case 4 (lines 221-223) in binary32, multiplier not positive. -/
theorem b32_Tick_backward_flip (s : AMovementCharacter) (hl : s.movementNumber < 0)
    (hp : s.lastMovementNumber > 0) (hm : s.movementMultiplier ≤ 0) :
    Tick s = ({ s with lastMovementNumber := s.movementNumber }, []) := by
  unfold Tick MoveCharacter
  rw [if_neg (fun c => lt_asymm hl c.1), if_neg (fun c => lt_asymm hl c.1),
    if_neg (fun c => not_le_of_lt hp c.2), if_pos ⟨hl, hp⟩, if_neg (not_lt_of_le hm)]

/-- Case 5 (lines 225-237) in binary32, multiplier positive: level zero. -/
theorem b32_Tick_neutral_decay (s : AMovementCharacter) (hl : s.movementNumber = 0)
    (hm : s.movementMultiplier > 0) :
    Tick s =
      ({ s with movementMultiplier := sub32 s.movementMultiplier hundredth32 },
        EngineCall.SetMaxWalkSpeed (mul32 s.startingWalkSpeed
            (sub32 s.movementMultiplier hundredth32)) ::
          (if s.lastMovementNumber > 0 then [EngineCall.AddMovementInput (ofInt32 1)]
           else if s.lastMovementNumber < 0 then [EngineCall.AddMovementInput (ofInt32 (-1))]
           else [])) := by
  have h0 : ¬ (s.movementNumber > 0) := by rw [hl]; exact lt_irrefl _
  have h1 : ¬ (s.movementNumber < 0) := by rw [hl]; exact lt_irrefl _
  have hm0 : s.movementMultiplier > s.movementNumber := by rw [hl]; exact hm
  unfold Tick MoveCharacter
  rw [if_neg (fun c => h0 c.1), if_neg (fun c => h0 c.1), if_neg (fun c => h1 c.1),
    if_neg (fun c => h1 c.1), if_pos hl, if_pos hm0]

/-- Case 5 (lines 238-240) in binary32, multiplier not positive. -/
theorem b32_Tick_neutral_rest (s : AMovementCharacter) (hl : s.movementNumber = 0)
    (hm : s.movementMultiplier ≤ 0) :
    Tick s = ({ s with lastMovementNumber := 0 }, []) := by
  have h0 : ¬ (s.movementNumber > 0) := by rw [hl]; exact lt_irrefl _
  have h1 : ¬ (s.movementNumber < 0) := by rw [hl]; exact lt_irrefl _
  have hm0 : ¬ (s.movementMultiplier > s.movementNumber) := by rw [hl]; exact not_lt_of_le hm
  unfold Tick MoveCharacter
  rw [if_neg (fun c => h0 c.1), if_neg (fun c => h0 c.1), if_neg (fun c => h1 c.1),
    if_neg (fun c => h1 c.1), if_pos hl, if_neg hm0]

/-- How a binary32 tick changes the multiplier when the level is one of the nine
integer levels: not at all; to the rounded `m + k * 0.01f` from below 4; or to the
rounded `m - k * 0.01f` from above 0, with `k` one of 1, 2, 3, 4. -/
theorem b32_Tick_multiplier_change (s : AMovementCharacter) (h : LevelInRange s) :
    (Tick s).1.movementMultiplier = s.movementMultiplier ∨
    (∃ k : ℤ, 1 ≤ k ∧ k ≤ 4 ∧
      (Tick s).1.movementMultiplier = roundInt (s.movementMultiplier + k * hundredth32) 0 ∧
      s.movementMultiplier < ofInt32 4) ∨
    (∃ k : ℤ, 1 ≤ k ∧ k ≤ 4 ∧
      (Tick s).1.movementMultiplier = roundInt (s.movementMultiplier - k * hundredth32) 0 ∧
      s.movementMultiplier > 0) := by
  obtain ⟨z, hz, hlo, hhi⟩ := h
  have hmul : mul32 hundredth32 s.movementNumber = z * hundredth32 := by
    rw [hz]; exact mul32_hundredth32 z hlo hhi
  have hneg : mul32 s.movementNumber (ofInt32 (-1)) = ofInt32 (-z) := by
    rw [hz]; exact mul32_neg_one z hlo hhi
  have hadd : ∀ a b : F32, add32 a b = roundInt (a + b) 0 := fun a b => by unfold add32; rfl
  have hsub : ∀ a b : F32, sub32 a b = roundInt (a - b) 0 := fun a b => by unfold sub32; rfl
  have h4 : ∀ w : ℤ, w ≤ 4 → ofInt32 w ≤ ofInt32 4 := fun w hw =>
    not_lt.mp (fun c => by rw [ofInt32_lt] at c; omega)
  rcases lt_trichotomy s.movementNumber 0 with hl | hl | hl
  · have hzneg : z < 0 := by rw [hz] at hl; exact (ofInt32_neg z).mp hl
    have hNpos : 0 < ofInt32 (-z) := (ofInt32_pos (-z)).mpr (by omega)
    rcases le_or_lt s.lastMovementNumber 0 with hp | hp
    · have hne : s.movementNumber ≠ ofInt32 (-z) := by
        rw [hz]
        intro c
        rw [ofInt32_inj] at c
        omega
      rw [b32_Tick_backward s (ofInt32 (-z)) hl hp hneg hne]
      dsimp only
      split_ifs with c1 c2
      · refine Or.inr (Or.inl ⟨-z, by omega, by omega, ?_, lt_of_lt_of_le c1 (h4 (-z) (by omega))⟩)
        rw [hsub, hmul]
        congr 1
        ring
      · refine Or.inr (Or.inr ⟨1, by omega, by omega, ?_, lt_trans hNpos c2⟩)
        rw [hsub, one_mul]
      · exact Or.inl rfl
    · rcases lt_or_le 0 s.movementMultiplier with hm | hm
      · rw [b32_Tick_backward_unwinding s hl hp hm]
        refine Or.inr (Or.inr ⟨-z, by omega, by omega, ?_, hm⟩)
        dsimp only
        rw [hadd, hmul]
        congr 1
        ring
      · rw [b32_Tick_backward_flip s hl hp hm]
        exact Or.inl rfl
  · rcases lt_or_le 0 s.movementMultiplier with hm | hm
    · rw [b32_Tick_neutral_decay s hl hm]
      refine Or.inr (Or.inr ⟨1, by omega, by omega, ?_, hm⟩)
      dsimp only
      rw [hsub, one_mul]
    · rw [b32_Tick_neutral_rest s hl hm]
      exact Or.inl rfl
  · have hzpos : 0 < z := by rw [hz] at hl; exact (ofInt32_pos z).mp hl
    rcases le_or_lt 0 s.lastMovementNumber with hp | hp
    · rw [b32_Tick_forward s hl hp]
      dsimp only
      split_ifs with c1 c2
      · refine Or.inr (Or.inl ⟨z, by omega, by omega, ?_, ?_⟩)
        · rw [hadd, hmul]
        · rw [hz] at c1
          exact lt_of_lt_of_le c1 (h4 z hhi)
      · refine Or.inr (Or.inr ⟨1, by omega, by omega, ?_, lt_trans hl c2⟩)
        rw [hsub, one_mul]
      · exact Or.inl rfl
    · rcases lt_or_le 0 s.movementMultiplier with hm | hm
      · rw [b32_Tick_forward_unwinding s hl hp hm]
        refine Or.inr (Or.inr ⟨z, by omega, by omega, ?_, hm⟩)
        dsimp only
        rw [hsub, hmul]
      · rw [b32_Tick_forward_flip s hl hp hm]
        exact Or.inl rfl

/-- The size of `0.01f` in units of `2 ^ (-149)`, compared with the rounding
error `2 ^ 127` and with the value 1. -/
theorem hundredth32_bounds : (2 : ℤ) ^ 127 < hundredth32 ∧ hundredth32 < 2 ^ 143 := by
  unfold hundredth32
  constructor <;> norm_num

/-- A binary32 tick keeps the multiplier between `-(0.04f + 2 ^ (-22))` and
`4 + 0.04f + 2 ^ (-22)` when the level is one of the nine integer levels. -/
theorem b32_MultiplierBounded_Tick (s : AMovementCharacter) (hl : LevelInRange s)
    (hm : MultiplierBounded s) : MultiplierBounded (Tick s).1 := by
  obtain ⟨hlo, hhi⟩ := hm
  obtain ⟨hc1, hc2⟩ := hundredth32_bounds
  have h4 : ofInt32 4 = 4 * 2 ^ 149 := by unfold ofInt32; rfl
  unfold MultiplierBounded
  rw [h4] at hhi ⊢
  rcases b32_Tick_multiplier_change s hl with h | ⟨k, hk1, hk4, h, hlt⟩ | ⟨k, hk1, hk4, h, hpos⟩
  · rw [h]
    exact ⟨hlo, hhi⟩
  · rw [h4] at hlt
    have hkc : hundredth32 ≤ k * hundredth32 ∧ k * hundredth32 ≤ 4 * hundredth32 := by
      constructor <;> nlinarith
    obtain ⟨e1, e2⟩ := roundInt_near (s.movementMultiplier + k * hundredth32)
      (by norm_num at hc1 hc2 hlo ⊢; linarith) (by norm_num at hc1 hc2 hlt ⊢; linarith)
    rw [h]
    constructor <;> linarith
  · have hkc : hundredth32 ≤ k * hundredth32 ∧ k * hundredth32 ≤ 4 * hundredth32 := by
      constructor <;> nlinarith
    obtain ⟨e1, e2⟩ := roundInt_near (s.movementMultiplier - k * hundredth32)
      (by norm_num at hc1 hc2 hpos ⊢; linarith) (by norm_num at hc1 hc2 hhi ⊢; linarith)
    rw [h]
    constructor <;> linarith

/-- Every event keeps the binary32 multiplier bounded. -/
theorem b32_MultiplierBounded_step (s : AMovementCharacter) (e : Event)
    (hl : LevelInRange s) (hm : MultiplierBounded s) : MultiplierBounded (step s e) := by
  cases e
  · show MultiplierBounded (ForwardMovement s)
    unfold ForwardMovement
    split_ifs
    · exact hm
    · exact hm
  · show MultiplierBounded (BackwardMovement s)
    unfold BackwardMovement
    split_ifs
    · exact hm
    · exact hm
  · exact hm
  · exact hm
  · exact hm
  · exact b32_MultiplierBounded_Tick s hl hm

/-- A finite sequence of events keeps the level one of the nine integer levels and
the binary32 multiplier bounded. -/
theorem b32_invariants_run (events : List Event) :
    ∀ s : AMovementCharacter, LevelInRange s → MultiplierBounded s →
      LevelInRange (run s events) ∧ MultiplierBounded (run s events) := by
  induction events with
  | nil => intro s hl hm; exact ⟨hl, hm⟩
  | cons e es ih =>
    intro s hl hm
    rw [b32_run_cons]
    exact ih _ (b32_LevelInRange_step s e hl) (b32_MultiplierBounded_step s e hl hm)

/-- The constructed object satisfies both binary32 invariants. -/
theorem b32_invariants_construct (maxWalkSpeed : F32) :
    LevelInRange (construct maxWalkSpeed) ∧ MultiplierBounded (construct maxWalkSpeed) := by
  obtain ⟨hc1, hc2⟩ := hundredth32_bounds
  refine ⟨⟨0, ofInt32_zero.symm, by omega, by omega⟩, ?_, ?_⟩
  · show -(4 * hundredth32 + 2 ^ 127) ≤ (0 : ℤ)
    linarith
  · show (0 : ℤ) ≤ ofInt32 4 + 4 * hundredth32 + 2 ^ 127
    have h4 : ofInt32 4 = 4 * 2 ^ 149 := by unfold ofInt32; rfl
    rw [h4]
    norm_num at hc1 ⊢
    linarith

/-- The objects a tick produces do not depend on the base speed. -/
theorem b32_Tick_base (s : AMovementCharacter) (b : F32) :
    (Tick { s with startingWalkSpeed := b }).1 = { (Tick s).1 with startingWalkSpeed := b } := by
  unfold Tick MoveCharacter
  dsimp only
  split_ifs <;> rfl

/-- The objects a run of ticks produces do not depend on the base speed. -/
theorem b32_ticks_base (n : Nat) (b : F32) :
    ∀ s : AMovementCharacter,
      ticks n { s with startingWalkSpeed := b } = { ticks n s with startingWalkSpeed := b } := by
  induction n with
  | zero => intro s; rfl
  | succ k ih =>
    intro s
    show ticks k (Tick { s with startingWalkSpeed := b }).1 = _
    rw [b32_Tick_base, ih]
    rfl

/-- A successful check holds at every object of the run. -/
theorem checkRun_sound (P : Nat → AMovementCharacter → Bool) (k : Nat) :
    ∀ (n : Nat) (s : AMovementCharacter), checkRun P k n s = true →
      ∀ j : Nat, j ≤ k → P (n + j) (ticks j s) = true := by
  induction k with
  | zero =>
    intro n s h j hj
    obtain rfl : j = 0 := by omega
    exact h
  | succ i ih =>
    intro n s h j hj
    unfold checkRun at h
    rw [Bool.and_eq_true] at h
    cases j with
    | zero => exact h.1
    | succ j' =>
      have := ih (n + 1) (Tick s).1 h.2 j' (by omega)
      rw [show n + (j' + 1) = n + 1 + j' by omega]
      exact this

/-- From rest with level 4 held (base speed 0), the ramp check holds at each of the
tick counts 0, ..., 100. -/
theorem rampCheck_run : checkRun rampCheck 100 0 ⟨ofInt32 4, 0, 0, 0⟩ = true := by
  decide!

/-- Ticks compose (binary32). -/
theorem b32_ticks_add (i : Nat) : ∀ (k : Nat) (s : AMovementCharacter),
    ticks (k + i) s = ticks i (ticks k s) := by
  intro k
  induction k with
  | zero => intro s; rw [Nat.zero_add]; rfl
  | succ j ih =>
    intro s
    rw [show j + 1 + i = (j + i) + 1 by omega]
    exact ih (Tick s).1

/-- With level 0 and the multiplier not positive, the first tick sets lastLevel to
0 and makes no engine call, and from then on nothing changes (binary32). -/
theorem b32_neutral_rest_forever (t : AMovementCharacter) (hl : t.movementNumber = 0)
    (hm : t.movementMultiplier ≤ 0) :
    Tick t = ({ t with lastMovementNumber := 0 }, []) ∧
    ∀ n : Nat, 1 ≤ n → ticks n t = { t with lastMovementNumber := 0 } ∧
      Tick (ticks n t) = (ticks n t, []) := by
  have h1 := b32_Tick_neutral_rest t hl hm
  have h2 : Tick { t with lastMovementNumber := 0 } = ({ t with lastMovementNumber := 0 }, []) :=
    b32_Tick_neutral_rest { t with lastMovementNumber := 0 } hl hm
  refine ⟨h1, ?_⟩
  intro n hn
  induction n, hn using Nat.le_induction with
  | base =>
    have e : ticks 1 t = { t with lastMovementNumber := 0 } := by
      show ticks 0 (Tick t).1 = _
      rw [h1]
      rfl
    rw [e]
    exact ⟨rfl, h2⟩
  | succ i _ ih =>
    have e : ticks (i + 1) t = { t with lastMovementNumber := 0 } := by
      rw [b32_ticks_succ, ih.1, h2]
    rw [e]
    exact ⟨rfl, h2⟩

/-- The decay run (binary32): with level 0 and the multiplier below 8, after some
number `k` of ticks the multiplier is not positive; it is positive before each of
these `k` ticks, which keep level, lastLevel and base speed. -/
theorem b32_decay_run (N : Nat) : ∀ s : AMovementCharacter, s.movementNumber = 0 →
    s.movementMultiplier < 2 ^ 152 →
    s.movementMultiplier ≤ (N : ℤ) * (hundredth32 - 2 ^ 127) →
    ∃ k : Nat,
      (0 < s.movementMultiplier →
        1 ≤ k ∧ ((k : ℤ) - 1) * (hundredth32 - 2 ^ 127) < s.movementMultiplier) ∧
      s.movementMultiplier ≤ (k : ℤ) * (hundredth32 + 2 ^ 127) ∧
      (∀ j : Nat, j < k →
        0 < (ticks j s).movementMultiplier ∧ (ticks j s).movementNumber = 0 ∧
        (ticks j s).lastMovementNumber = s.lastMovementNumber ∧
        (ticks j s).startingWalkSpeed = s.startingWalkSpeed ∧
        (ticks j s).movementMultiplier < 2 ^ 152) ∧
      (ticks k s).movementMultiplier ≤ 0 ∧ (ticks k s).movementNumber = 0 ∧
      (ticks k s).lastMovementNumber = s.lastMovementNumber := by
  obtain ⟨hc1, hc2⟩ := hundredth32_bounds
  induction N with
  | zero =>
    intro s hl _ hN
    have hm0 : s.movementMultiplier ≤ 0 := by
      rw [Nat.cast_zero, zero_mul] at hN
      exact hN
    refine ⟨0, fun h => absurd h (not_lt_of_le hm0), ?_, fun j hj => absurd hj (Nat.not_lt_zero j),
      hm0, hl, rfl⟩
    rw [Nat.cast_zero, zero_mul]
    exact hm0
  | succ i ih =>
    intro s hl hb hN
    rcases le_or_lt s.movementMultiplier 0 with hm0 | hpos
    · refine ⟨0, fun h => absurd h (not_lt_of_le hm0), ?_,
        fun j hj => absurd hj (Nat.not_lt_zero j), hm0, hl, rfl⟩
      rw [Nat.cast_zero, zero_mul]
      exact hm0
    · have hT := b32_Tick_neutral_decay s hl hpos
      have hsub : sub32 s.movementMultiplier hundredth32 =
          roundInt (s.movementMultiplier - hundredth32) 0 := by unfold sub32; rfl
      obtain ⟨e1, e2⟩ := roundInt_near (s.movementMultiplier - hundredth32)
        (by norm_num at hc2 ⊢; linarith) (by linarith)
      rw [← hsub] at e1 e2
      have hN' : s.movementMultiplier ≤ ((i : ℤ) + 1) * (hundredth32 - 2 ^ 127) := by
        exact_mod_cast hN
      have hs' : (Tick s).1 =
          { s with movementMultiplier := sub32 s.movementMultiplier hundredth32 } := by
        rw [hT]
      obtain ⟨k, hk1, hk2, hk3, hk4, hk5, hk6⟩ :=
        ih { s with movementMultiplier := sub32 s.movementMultiplier hundredth32 } hl
          (by dsimp only; linarith) (by dsimp only; linarith)
      dsimp only at hk1 hk2 hk3 hk4 hk5 hk6
      have hstep : ∀ j : Nat, ticks (j + 1) s =
          ticks j { s with movementMultiplier := sub32 s.movementMultiplier hundredth32 } := by
        intro j
        show ticks j (Tick s).1 = _
        rw [hs']
      refine ⟨k + 1, fun _ => ⟨by omega, ?_⟩, ?_, ?_, ?_, ?_, ?_⟩
      · push_cast
        rw [add_sub_cancel_right]
        rcases le_or_lt (sub32 s.movementMultiplier hundredth32) 0 with hle | hgt
        · have hk0 : k = 0 := by
            by_contra hne
            have := (hk3 0 (Nat.pos_of_ne_zero hne)).1
            exact absurd this (not_lt_of_le hle)
          rw [hk0, Nat.cast_zero, zero_mul]
          exact hpos
        · have := (hk1 hgt).2
          linarith
      · push_cast
        linarith
      · intro j hj
        cases j with
        | zero => exact ⟨hpos, hl, rfl, rfl, hb⟩
        | succ j' =>
          rw [hstep]
          exact hk3 j' (by omega)
      · rw [hstep]
        exact hk4
      · rw [hstep]
        exact hk5
      · rw [hstep]
        exact hk6

/-- A binary32 tick when level and lastLevel do not have opposite signs (cases 1
and 3), for one of the eight non-zero integer levels `z`: towards the magnitude
`|z|`, and lastLevel becomes the level. -/
theorem b32_Tick_aligned (s : AMovementCharacter) (z : ℤ) (hz : s.movementNumber = ofInt32 z)
    (hlo : -4 ≤ z) (hhi : z ≤ 4)
    (hal : (0 < z ∧ 0 ≤ s.lastMovementNumber) ∨ (z < 0 ∧ s.lastMovementNumber ≤ 0)) :
    (Tick s).1 =
      { s with
        movementMultiplier :=
          if s.movementMultiplier < ofInt32 |z| then
            roundInt (s.movementMultiplier + |z| * hundredth32) 0
          else if s.movementMultiplier > ofInt32 |z| then
            roundInt (s.movementMultiplier - hundredth32) 0
          else s.movementMultiplier
        lastMovementNumber := s.movementNumber } := by
  have hmul : mul32 hundredth32 s.movementNumber = z * hundredth32 := by
    rw [hz]; exact mul32_hundredth32 z hlo hhi
  have hadd : ∀ a b : F32, add32 a b = roundInt (a + b) 0 := fun a b => by unfold add32; rfl
  have hsub : ∀ a b : F32, sub32 a b = roundInt (a - b) 0 := fun a b => by unfold sub32; rfl
  rcases hal with ⟨hzp, hp⟩ | ⟨hzn, hp⟩
  · have hl : s.movementNumber > 0 := by rw [hz]; exact (ofInt32_pos z).mpr hzp
    rw [b32_Tick_forward s hl hp, abs_of_pos hzp, hadd, hsub, hmul, ← hz]
  · have hl : s.movementNumber < 0 := by rw [hz]; exact (ofInt32_neg z).mpr hzn
    have hneg : mul32 s.movementNumber (ofInt32 (-1)) = ofInt32 (-z) := by
      rw [hz]; exact mul32_neg_one z hlo hhi
    have hne : s.movementNumber ≠ ofInt32 (-z) := by
      rw [hz]
      intro c
      rw [ofInt32_inj] at c
      omega
    have e : s.movementMultiplier - z * hundredth32 = s.movementMultiplier + -z * hundredth32 := by
      ring
    rw [b32_Tick_backward s (ofInt32 (-z)) hl hp hneg hne, abs_of_neg hzn, hsub, hsub, hmul, e]

/-- A binary32 tick when level and lastLevel have opposite signs (cases 2 and 4)
and the multiplier is positive: down by the rounded `|z| * 0.01f`. -/
theorem b32_Tick_opposed (s : AMovementCharacter) (z : ℤ) (hz : s.movementNumber = ofInt32 z)
    (hlo : -4 ≤ z) (hhi : z ≤ 4)
    (hop : (0 < z ∧ s.lastMovementNumber < 0) ∨ (z < 0 ∧ 0 < s.lastMovementNumber))
    (hm : 0 < s.movementMultiplier) :
    (Tick s).1 =
      { s with movementMultiplier := roundInt (s.movementMultiplier - |z| * hundredth32) 0 } := by
  have hmul : mul32 hundredth32 s.movementNumber = z * hundredth32 := by
    rw [hz]; exact mul32_hundredth32 z hlo hhi
  have hadd : ∀ a b : F32, add32 a b = roundInt (a + b) 0 := fun a b => by unfold add32; rfl
  have hsub : ∀ a b : F32, sub32 a b = roundInt (a - b) 0 := fun a b => by unfold sub32; rfl
  rcases hop with ⟨hzp, hp⟩ | ⟨hzn, hp⟩
  · have hl : s.movementNumber > 0 := by rw [hz]; exact (ofInt32_pos z).mpr hzp
    rw [b32_Tick_forward_unwinding s hl hp hm, abs_of_pos hzp, hsub, hmul]
  · have hl : s.movementNumber < 0 := by rw [hz]; exact (ofInt32_neg z).mpr hzn
    have e : s.movementMultiplier + z * hundredth32 = s.movementMultiplier - -z * hundredth32 := by
      ring
    rw [b32_Tick_backward_unwinding s hl hp hm, abs_of_neg hzn, hadd, hmul, e]

/-- A binary32 tick when level and lastLevel have opposite signs (cases 2 and 4)
and the multiplier is not positive: only lastLevel changes, to the level. -/
theorem b32_Tick_opposed_flip (s : AMovementCharacter) (z : ℤ)
    (hz : s.movementNumber = ofInt32 z)
    (hop : (0 < z ∧ s.lastMovementNumber < 0) ∨ (z < 0 ∧ 0 < s.lastMovementNumber))
    (hm : s.movementMultiplier ≤ 0) :
    (Tick s).1 = { s with lastMovementNumber := s.movementNumber } := by
  rcases hop with ⟨hzp, hp⟩ | ⟨hzn, hp⟩
  · have hl : s.movementNumber > 0 := by rw [hz]; exact (ofInt32_pos z).mpr hzp
    rw [b32_Tick_forward_flip s hl hp hm]
  · have hl : s.movementNumber < 0 := by rw [hz]; exact (ofInt32_neg z).mpr hzn
    rw [b32_Tick_backward_flip s hl hp hm]

/-- Facts about the magnitude `a = |z|` of a non-zero integer level, in units. -/
theorem b32_magnitude_facts (z : ℤ) (h0 : z ≠ 0) (hlo : -4 ≤ z) (hhi : z ≤ 4) :
    hundredth32 ≤ |z| * hundredth32 ∧ |z| * hundredth32 ≤ 4 * hundredth32 ∧
    2 ^ 149 ≤ ofInt32 |z| ∧ ofInt32 |z| ≤ 4 * 2 ^ 149 := by
  obtain ⟨hc1, hc2⟩ := hundredth32_bounds
  have ha1 : 1 ≤ |z| := Int.one_le_abs h0
  have ha4 : |z| ≤ 4 := abs_le.mpr ⟨hlo, hhi⟩
  have hT : ofInt32 |z| = |z| * 2 ^ 149 := by unfold ofInt32; rfl
  rw [hT]
  refine ⟨?_, ?_, ?_, ?_⟩ <;> nlinarith

/-- Once near the target, a binary32 tick keeps the object near the target. -/
theorem b32_NearTarget_Tick (z : ℤ) (h0 : z ≠ 0) (hlo : -4 ≤ z) (hhi : z ≤ 4)
    (s : AMovementCharacter) (h : NearTarget z s) : NearTarget z (Tick s).1 := by
  obtain ⟨hl, hp, hb1, hb2⟩ := h
  obtain ⟨hc1, hc2⟩ := hundredth32_bounds
  obtain ⟨hk1, hk2, ht1, ht2⟩ := b32_magnitude_facts z h0 hlo hhi
  have hal : (0 < z ∧ 0 ≤ s.lastMovementNumber) ∨ (z < 0 ∧ s.lastMovementNumber ≤ 0) := by
    rcases lt_or_gt_of_ne h0 with hn | hpz
    · exact Or.inr ⟨hn, by rw [hp]; exact le_of_lt ((ofInt32_neg z).mpr hn)⟩
    · exact Or.inl ⟨hpz, by rw [hp]; exact le_of_lt ((ofInt32_pos z).mpr hpz)⟩
  rw [b32_Tick_aligned s z hl hlo hhi hal]
  unfold NearTarget
  dsimp only
  refine ⟨hl, hl, ?_⟩
  split_ifs with c1 c2
  · obtain ⟨e1, e2⟩ := roundInt_near (s.movementMultiplier + |z| * hundredth32)
      (by norm_num at hc1 hc2 ht1 ht2 ⊢; linarith) (by norm_num at hc1 hc2 ht1 ht2 ⊢; linarith)
    constructor <;> linarith
  · obtain ⟨e1, e2⟩ := roundInt_near (s.movementMultiplier - hundredth32)
      (by norm_num at hc1 hc2 ht1 ht2 ⊢; linarith) (by norm_num at hc1 hc2 ht1 ht2 ⊢; linarith)
    constructor <;> linarith
  · exact ⟨hb1, hb2⟩

/-- Once near the target, the object stays near the target under any number of
binary32 ticks. -/
theorem b32_NearTarget_ticks (z : ℤ) (h0 : z ≠ 0) (hlo : -4 ≤ z) (hhi : z ≤ 4) (i : Nat) :
    ∀ s : AMovementCharacter, NearTarget z s → NearTarget z (ticks i s) := by
  induction i with
  | zero => intro s h; exact h
  | succ j ih => intro s h; exact ih (Tick s).1 (b32_NearTarget_Tick z h0 hlo hhi s h)

/-- When level and lastLevel do not have opposite signs, the binary32 ticks bring
the object near the target. -/
theorem b32_reach_aligned (z : ℤ) (h0 : z ≠ 0) (hlo : -4 ≤ z) (hhi : z ≤ 4) (N : Nat) :
    ∀ s : AMovementCharacter, s.movementNumber = ofInt32 z →
      ((0 < z ∧ 0 ≤ s.lastMovementNumber) ∨ (z < 0 ∧ s.lastMovementNumber ≤ 0)) →
      -(2 ^ 151) ≤ s.movementMultiplier → s.movementMultiplier ≤ 5 * 2 ^ 149 →
      |s.movementMultiplier - ofInt32 (|z|)| ≤ (N : ℤ) * (hundredth32 - 2 ^ 127) →
      ∃ n : Nat, NearTarget z (ticks n s) := by
  obtain ⟨hc1, hc2⟩ := hundredth32_bounds
  obtain ⟨hk1, hk2, ht1, ht2⟩ := b32_magnitude_facts z h0 hlo hhi
  have hal' : ∀ t : AMovementCharacter, t.movementNumber = ofInt32 z →
      t.lastMovementNumber = ofInt32 z →
      ((0 < z ∧ 0 ≤ t.lastMovementNumber) ∨ (z < 0 ∧ t.lastMovementNumber ≤ 0)) := by
    intro t _ hp
    rcases lt_or_gt_of_ne h0 with hn | hpz
    · exact Or.inr ⟨hn, by rw [hp]; exact le_of_lt ((ofInt32_neg z).mpr hn)⟩
    · exact Or.inl ⟨hpz, by rw [hp]; exact le_of_lt ((ofInt32_pos z).mpr hpz)⟩
  induction N with
  | zero =>
    intro s hl hal _ _ hN
    rw [Nat.cast_zero, zero_mul] at hN
    have hm : s.movementMultiplier = ofInt32 |z| := by
      have := abs_nonpos_iff.mp hN
      linarith
    refine ⟨1, ?_⟩
    show NearTarget z (Tick s).1
    rw [b32_Tick_aligned s z hl hlo hhi hal]
    unfold NearTarget
    dsimp only
    rw [if_neg (by rw [hm]; exact lt_irrefl _), if_neg (by rw [hm]; exact lt_irrefl _), hm]
    exact ⟨hl, hl, by linarith, by linarith⟩
  | succ i ih =>
    intro s hl hal hb1 hb2 hN
    have hN' : |s.movementMultiplier - ofInt32 (|z|)| ≤ ((i : ℤ) + 1) * (hundredth32 - 2 ^ 127) := by
      exact_mod_cast hN
    have hT := b32_Tick_aligned s z hl hlo hhi hal
    rcases lt_trichotomy s.movementMultiplier (ofInt32 |z|) with c | c | c
    · rw [if_pos c] at hT
      obtain ⟨e1, e2⟩ := roundInt_near (s.movementMultiplier + |z| * hundredth32)
        (by norm_num at hc1 hc2 ht1 ht2 ⊢; linarith) (by norm_num at hc1 hc2 ht1 ht2 ⊢; linarith)
      rw [abs_of_neg (by linarith)] at hN'
      rcases le_or_lt (ofInt32 |z| - (|z| * hundredth32 + 2 ^ 127))
          (roundInt (s.movementMultiplier + |z| * hundredth32) 0) with hin | hout
      · refine ⟨1, ?_⟩
        show NearTarget z (Tick s).1
        rw [hT]
        exact ⟨hl, hl, hin, by dsimp only; linarith⟩
      · have hs : ∀ j : Nat, ticks (j + 1) s = ticks j (Tick s).1 := fun j => rfl
        obtain ⟨n, hn⟩ := ih (Tick s).1 (by rw [hT]; exact hl)
          (hal' _ (by rw [hT]; exact hl) (by rw [hT]; exact hl))
          (by rw [hT]; dsimp only; linarith) (by rw [hT]; dsimp only; linarith)
          (by
            rw [hT]
            dsimp only
            rw [abs_of_neg (by linarith)]
            linarith)
        exact ⟨n + 1, by rw [hs]; exact hn⟩
    · refine ⟨1, ?_⟩
      show NearTarget z (Tick s).1
      rw [hT, if_neg (by rw [c]; exact lt_irrefl _), if_neg (by rw [c]; exact lt_irrefl _)]
      exact ⟨hl, hl, by dsimp only; linarith, by dsimp only; linarith⟩
    · rw [if_neg (lt_asymm c), if_pos c] at hT
      obtain ⟨e1, e2⟩ := roundInt_near (s.movementMultiplier - hundredth32)
        (by norm_num at hc1 hc2 ht1 ht2 ⊢; linarith) (by norm_num at hc1 hc2 ht1 ht2 ⊢; linarith)
      rw [abs_of_pos (by linarith)] at hN'
      rcases le_or_lt (roundInt (s.movementMultiplier - hundredth32) 0)
          (ofInt32 |z| + (|z| * hundredth32 + 2 ^ 127)) with hin | hout
      · refine ⟨1, ?_⟩
        show NearTarget z (Tick s).1
        rw [hT]
        exact ⟨hl, hl, by dsimp only; linarith, hin⟩
      · have hs : ∀ j : Nat, ticks (j + 1) s = ticks j (Tick s).1 := fun j => rfl
        obtain ⟨n, hn⟩ := ih (Tick s).1 (by rw [hT]; exact hl)
          (hal' _ (by rw [hT]; exact hl) (by rw [hT]; exact hl))
          (by rw [hT]; dsimp only; linarith) (by rw [hT]; dsimp only; linarith)
          (by
            rw [hT]
            dsimp only
            rw [abs_of_pos (by linarith)]
            linarith)
        exact ⟨n + 1, by rw [hs]; exact hn⟩

/-- When level and lastLevel have opposite signs, the binary32 ticks first unwind
the multiplier, then flip lastLevel, and then bring the object near the target. -/
theorem b32_reach_opposed (z : ℤ) (h0 : z ≠ 0) (hlo : -4 ≤ z) (hhi : z ≤ 4) (N : Nat) :
    ∀ s : AMovementCharacter, s.movementNumber = ofInt32 z →
      ((0 < z ∧ s.lastMovementNumber < 0) ∨ (z < 0 ∧ 0 < s.lastMovementNumber)) →
      -(2 ^ 151) ≤ s.movementMultiplier → s.movementMultiplier ≤ 5 * 2 ^ 149 →
      s.movementMultiplier ≤ (N : ℤ) * (hundredth32 - 2 ^ 127) →
      ∃ n : Nat, NearTarget z (ticks n s) := by
  obtain ⟨hc1, hc2⟩ := hundredth32_bounds
  obtain ⟨hk1, hk2, ht1, ht2⟩ := b32_magnitude_facts z h0 hlo hhi
  have hs : ∀ (t : AMovementCharacter) (j : Nat), ticks (j + 1) t = ticks j (Tick t).1 :=
    fun t j => rfl
  have hflip : ∀ s : AMovementCharacter, s.movementNumber = ofInt32 z →
      ((0 < z ∧ s.lastMovementNumber < 0) ∨ (z < 0 ∧ 0 < s.lastMovementNumber)) →
      -(2 ^ 151) ≤ s.movementMultiplier → s.movementMultiplier ≤ 0 →
      ∃ n : Nat, NearTarget z (ticks n s) := by
    intro s hl hop hb1 hm
    have hT := b32_Tick_opposed_flip s z hl hop hm
    have hal : (0 < z ∧ 0 ≤ (Tick s).1.lastMovementNumber) ∨
        (z < 0 ∧ (Tick s).1.lastMovementNumber ≤ 0) := by
      rw [hT]
      dsimp only
      rw [hl]
      rcases lt_or_gt_of_ne h0 with hn | hpz
      · exact Or.inr ⟨hn, le_of_lt ((ofInt32_neg z).mpr hn)⟩
      · exact Or.inl ⟨hpz, le_of_lt ((ofInt32_pos z).mpr hpz)⟩
    have hmeas : |(Tick s).1.movementMultiplier - ofInt32 (|z|)| ≤
        ((|(Tick s).1.movementMultiplier - ofInt32 (|z|)|.toNat : Nat) : ℤ) *
          (hundredth32 - 2 ^ 127) := by
      rw [Int.toNat_of_nonneg (abs_nonneg _)]
      have h1 : (1 : ℤ) ≤ hundredth32 - 2 ^ 127 := by linarith
      calc |(Tick s).1.movementMultiplier - ofInt32 (|z|)|
          = |(Tick s).1.movementMultiplier - ofInt32 (|z|)| * 1 := (mul_one _).symm
        _ ≤ |(Tick s).1.movementMultiplier - ofInt32 (|z|)| * (hundredth32 - 2 ^ 127) :=
            mul_le_mul_of_nonneg_left h1 (abs_nonneg _)
    obtain ⟨n, hn⟩ := b32_reach_aligned z h0 hlo hhi _ (Tick s).1 (by rw [hT]; exact hl) hal
      (by rw [hT]; exact hb1) (by rw [hT]; dsimp only; linarith) hmeas
    exact ⟨n + 1, by rw [hs]; exact hn⟩
  induction N with
  | zero =>
    intro s hl hop hb1 _ hN
    rw [Nat.cast_zero, zero_mul] at hN
    exact hflip s hl hop hb1 hN
  | succ i ih =>
    intro s hl hop hb1 hb2 hN
    have hN' : s.movementMultiplier ≤ ((i : ℤ) + 1) * (hundredth32 - 2 ^ 127) := by
      exact_mod_cast hN
    rcases le_or_lt s.movementMultiplier 0 with hm | hm
    · exact hflip s hl hop hb1 hm
    · have hT := b32_Tick_opposed s z hl hlo hhi hop hm
      obtain ⟨e1, e2⟩ := roundInt_near (s.movementMultiplier - |z| * hundredth32)
        (by norm_num at hc1 hc2 ht1 ht2 ⊢; linarith) (by norm_num at hc1 hc2 ht1 ht2 ⊢; linarith)
      obtain ⟨n, hn⟩ := ih (Tick s).1 (by rw [hT]; exact hl) (by rw [hT]; exact hop)
        (by rw [hT]; dsimp only; norm_num at hc1 hc2 ht1 ht2 ⊢; linarith)
        (by rw [hT]; dsimp only; linarith) (by rw [hT]; dsimp only; linarith)
      exact ⟨n + 1, by rw [hs]; exact hn⟩

/-- With a non-zero integer level held and the multiplier bounded, the binary32
ticks bring the object near the target, where it stays. -/
theorem b32_settles_near (z : ℤ) (h0 : z ≠ 0) (hlo : -4 ≤ z) (hhi : z ≤ 4)
    (s : AMovementCharacter) (hl : s.movementNumber = ofInt32 z) (hm : MultiplierBounded s) :
    ∃ n : Nat, ∀ m : Nat, n ≤ m → NearTarget z (ticks m s) := by
  obtain ⟨hc1, hc2⟩ := hundredth32_bounds
  obtain ⟨hb1, hb2⟩ := hm
  have h4 : ofInt32 4 = 4 * 2 ^ 149 := by unfold ofInt32; rfl
  rw [h4] at hb2
  have hI1 : -(2 ^ 151) ≤ s.movementMultiplier := by norm_num at hc1 hc2 hb1 ⊢; linarith
  have hI2 : s.movementMultiplier ≤ 5 * 2 ^ 149 := by norm_num at hc1 hc2 hb2 ⊢; linarith
  have h1 : (1 : ℤ) ≤ hundredth32 - 2 ^ 127 := by linarith
  have hreach : ∃ n : Nat, NearTarget z (ticks n s) := by
    by_cases hal : (0 < z ∧ 0 ≤ s.lastMovementNumber) ∨ (z < 0 ∧ s.lastMovementNumber ≤ 0)
    · refine b32_reach_aligned z h0 hlo hhi
        (|s.movementMultiplier - ofInt32 (|z|)|.toNat) s hl hal hI1 hI2 ?_
      rw [Int.toNat_of_nonneg (abs_nonneg _)]
      calc |s.movementMultiplier - ofInt32 (|z|)|
          = |s.movementMultiplier - ofInt32 (|z|)| * 1 := (mul_one _).symm
        _ ≤ |s.movementMultiplier - ofInt32 (|z|)| * (hundredth32 - 2 ^ 127) :=
            mul_le_mul_of_nonneg_left h1 (abs_nonneg _)
    · have hop : (0 < z ∧ s.lastMovementNumber < 0) ∨ (z < 0 ∧ 0 < s.lastMovementNumber) := by
        rcases lt_or_gt_of_ne h0 with hn | hpz
        · refine Or.inr ⟨hn, ?_⟩
          by_contra hc
          exact hal (Or.inr ⟨hn, not_lt.mp hc⟩)
        · refine Or.inl ⟨hpz, ?_⟩
          by_contra hc
          exact hal (Or.inl ⟨hpz, not_lt.mp hc⟩)
      refine b32_reach_opposed z h0 hlo hhi (|s.movementMultiplier|.toNat) s hl hop hI1 hI2 ?_
      rw [Int.toNat_of_nonneg (abs_nonneg _)]
      calc s.movementMultiplier ≤ |s.movementMultiplier| := le_abs_self _
        _ = |s.movementMultiplier| * 1 := (mul_one _).symm
        _ ≤ |s.movementMultiplier| * (hundredth32 - 2 ^ 127) :=
            mul_le_mul_of_nonneg_left h1 (abs_nonneg _)
  obtain ⟨n, hn⟩ := hreach
  refine ⟨n, fun m hm => ?_⟩
  obtain ⟨i, rfl⟩ : ∃ i, m = n + i := ⟨m - n, by omega⟩
  rw [b32_ticks_add]
  exact b32_NearTarget_ticks z h0 hlo hhi i _ hn

/-- The rational value of the binary32 value of an integer. -/
theorem toRat32_ofInt32 (z : ℤ) : toRat32 (ofInt32 z) = (z : ℚ) := by
  unfold toRat32 ofInt32
  rw [Int.cast_mul, Int.cast_pow, Int.cast_ofNat]
  exact mul_div_cancel_right₀ _ (by positivity)

/-- Near the target in units means within `a / 100 + 3 / 10000000` of `a` as a
rational number. -/
theorem toRat32_near (m a : ℤ) (ha : 0 ≤ a)
    (h1 : ofInt32 a - (a * hundredth32 + 2 ^ 127) ≤ m)
    (h2 : m ≤ ofInt32 a + (a * hundredth32 + 2 ^ 127)) :
    |toRat32 m - (a : ℚ)| ≤ (a : ℚ) / 100 + 3 / 10000000 := by
  have hT : ofInt32 a = a * 2 ^ 149 := by unfold ofInt32; rfl
  have hh : hundredth32 = 10737418 * 2 ^ 119 := by unfold hundredth32; rfl
  rw [hT, hh] at h1 h2
  have e1 : 1000000000 * (a * 2 ^ 149 - m) ≤ (10000000 * a + 300) * 2 ^ 149 := by
    have : 1000000000 * (a * (10737418 * 2 ^ 119) + 2 ^ 127) ≤
        (10000000 * a + 300) * 2 ^ 149 := by
      have hk : (1000000000 : ℤ) * (10737418 * 2 ^ 119) ≤ 10000000 * 2 ^ 149 := by norm_num
      have := mul_le_mul_of_nonneg_left hk ha
      norm_num at this ⊢
      linarith
    linarith
  have e2 : 1000000000 * (m - a * 2 ^ 149) ≤ (10000000 * a + 300) * 2 ^ 149 := by
    have : 1000000000 * (a * (10737418 * 2 ^ 119) + 2 ^ 127) ≤
        (10000000 * a + 300) * 2 ^ 149 := by
      have hk : (1000000000 : ℤ) * (10737418 * 2 ^ 119) ≤ 10000000 * 2 ^ 149 := by norm_num
      have := mul_le_mul_of_nonneg_left hk ha
      norm_num at this ⊢
      linarith
    linarith
  have q1 : ((1000000000 * (a * 2 ^ 149 - m) : ℤ) : ℚ) ≤
      (((10000000 * a + 300) * 2 ^ 149 : ℤ) : ℚ) := Int.cast_le.mpr e1
  have q2 : ((1000000000 * (m - a * 2 ^ 149) : ℤ) : ℚ) ≤
      (((10000000 * a + 300) * 2 ^ 149 : ℤ) : ℚ) := Int.cast_le.mpr e2
  simp only [Int.cast_mul, Int.cast_sub, Int.cast_add, Int.cast_pow, Int.cast_ofNat] at q1 q2
  have hp : (0 : ℚ) < (2 : ℚ) ^ 149 := by positivity
  unfold toRat32
  generalize (2 : ℚ) ^ 149 = P at q1 q2 hp ⊢
  generalize (m : ℚ) = M at q1 q2 ⊢
  generalize (a : ℚ) = A at q1 q2 ⊢
  rw [abs_le]
  constructor
  · rw [le_sub_iff_add_le, le_div_iff₀ hp]
    linarith
  · rw [sub_le_iff_le_add, div_le_iff₀ hp]
    linarith

/-- From rest with level 1 held (base speed 0): the object after 100 ticks and
after 101 ticks, and the two ticks that follow, which lead back to the object
after 101 ticks. -/
theorem b32_level_one_cycle :
    ticks 100 ⟨ofInt32 1, 0, 0, 0⟩ = ⟨ofInt32 1, ofInt32 1, 16777205 * 2 ^ 125, 0⟩ ∧
    (Tick ⟨ofInt32 1, ofInt32 1, 16777205 * 2 ^ 125, 0⟩).1 =
      ⟨ofInt32 1, ofInt32 1, 8472489 * 2 ^ 126, 0⟩ ∧
    (Tick ⟨ofInt32 1, ofInt32 1, 8472489 * 2 ^ 126, 0⟩).1 =
      ⟨ofInt32 1, ofInt32 1, 8388603 * 2 ^ 126, 0⟩ ∧
    (Tick ⟨ofInt32 1, ofInt32 1, 8388603 * 2 ^ 126, 0⟩).1 =
      ⟨ofInt32 1, ofInt32 1, 8472489 * 2 ^ 126, 0⟩ := by
  refine ⟨?_, ?_, ?_, ?_⟩ <;> decide!

/-- The object after `ForwardMovement` on the constructed object: level 1. -/
theorem b32_ForwardMovement_construct (baseSpeed : F32) :
    ForwardMovement (construct baseSpeed) = ⟨ofInt32 1, 0, 0, baseSpeed⟩ := by
  have h1 : (0 : F32) < ofInt32 4 := (ofInt32_pos 4).mpr (by norm_num)
  have h2 : add32 0 (ofInt32 1) = ofInt32 1 := by decide!
  unfold ForwardMovement construct
  dsimp only
  rw [if_pos h1, h2]

/-- From rest with level 1 held, for any base speed, the object after `101 + i`
ticks is one of the two objects of the cycle. -/
theorem b32_level_one_ticks (baseSpeed : F32) (i : Nat) :
    ticks (101 + i) ⟨ofInt32 1, 0, 0, baseSpeed⟩ =
        ⟨ofInt32 1, ofInt32 1, 8472489 * 2 ^ 126, baseSpeed⟩ ∨
      ticks (101 + i) ⟨ofInt32 1, 0, 0, baseSpeed⟩ =
        ⟨ofInt32 1, ofInt32 1, 8388603 * 2 ^ 126, baseSpeed⟩ := by
  obtain ⟨h100, hA0, hAB, hBA⟩ := b32_level_one_cycle
  have hbase : ∀ m : F32, (Tick ⟨ofInt32 1, ofInt32 1, m, baseSpeed⟩).1 =
      { (Tick ⟨ofInt32 1, ofInt32 1, m, 0⟩).1 with startingWalkSpeed := baseSpeed } :=
    fun m => b32_Tick_base ⟨ofInt32 1, ofInt32 1, m, 0⟩ baseSpeed
  induction i with
  | zero =>
    left
    have h := b32_ticks_base 100 baseSpeed ⟨ofInt32 1, 0, 0, 0⟩
    rw [h100] at h
    show ticks (100 + 1) ⟨ofInt32 1, 0, 0, baseSpeed⟩ = _
    rw [b32_ticks_succ]
    have h' : ticks 100 ⟨ofInt32 1, 0, 0, baseSpeed⟩ =
        ⟨ofInt32 1, ofInt32 1, 16777205 * 2 ^ 125, baseSpeed⟩ := h
    rw [h', hbase, hA0]
  | succ j ih =>
    show ticks (101 + j + 1) ⟨ofInt32 1, 0, 0, baseSpeed⟩ = _ ∨
      ticks (101 + j + 1) ⟨ofInt32 1, 0, 0, baseSpeed⟩ = _
    rw [b32_ticks_succ]
    rcases ih with h | h
    · right
      rw [h, hbase, hAB]
    · left
      rw [h, hbase, hBA]

/-- From rest, `ForwardMovement`
gives level 1 (lastLevel 0, multiplier 0); with level 1 held, the multiplier after
100 ticks is `16777205 * 2 ^ (-24)` = 0.99999934, and after every `n ≥ 101` ticks
it is one of `8472489 * 2 ^ (-23)` = 1.00999939 and `8388603 * 2 ^ (-23)` =
0.99999940: the object alternates between the two for ever and the multiplier is
never the level 1. -/
theorem b32_level_one_never_settles (baseSpeed : F32) :
    (ticks 100 (ForwardMovement (construct baseSpeed))).movementMultiplier =
      16777205 * 2 ^ 125 ∧
    toRat32 (ticks 100 (ForwardMovement (construct baseSpeed))).movementMultiplier ≠ 1 ∧
    (∀ n : Nat, 101 ≤ n →
      (ticks n (ForwardMovement (construct baseSpeed))).movementNumber = ofInt32 1 ∧
      (ticks n (ForwardMovement (construct baseSpeed))).lastMovementNumber = ofInt32 1 ∧
      ((ticks n (ForwardMovement (construct baseSpeed))).movementMultiplier =
          8472489 * 2 ^ 126 ∨
        (ticks n (ForwardMovement (construct baseSpeed))).movementMultiplier =
          8388603 * 2 ^ 126) ∧
      toRat32 (ticks n (ForwardMovement (construct baseSpeed))).movementMultiplier ≠ 1 ∧
      (ticks (n + 1) (ForwardMovement (construct baseSpeed))).movementMultiplier ≠
        (ticks n (ForwardMovement (construct baseSpeed))).movementMultiplier) := by
  obtain ⟨h100, -, hAB, hBA⟩ := b32_level_one_cycle
  have hbase : ∀ m : F32, (Tick ⟨ofInt32 1, ofInt32 1, m, baseSpeed⟩).1 =
      { (Tick ⟨ofInt32 1, ofInt32 1, m, 0⟩).1 with startingWalkSpeed := baseSpeed } :=
    fun m => b32_Tick_base ⟨ofInt32 1, ofInt32 1, m, 0⟩ baseSpeed
  have ha : toRat32 (8472489 * 2 ^ 126) ≠ 1 := by unfold toRat32; norm_num
  have hb : toRat32 (8388603 * 2 ^ 126) ≠ 1 := by unfold toRat32; norm_num
  have hc : toRat32 (16777205 * 2 ^ 125) ≠ 1 := by unfold toRat32; norm_num
  have hab : (8388603 * 2 ^ 126 : ℤ) ≠ 8472489 * 2 ^ 126 := by norm_num
  rw [b32_ForwardMovement_construct]
  have h := b32_ticks_base 100 baseSpeed ⟨ofInt32 1, 0, 0, 0⟩
  rw [h100] at h
  have h' : ticks 100 ⟨ofInt32 1, 0, 0, baseSpeed⟩ =
      ⟨ofInt32 1, ofInt32 1, 16777205 * 2 ^ 125, baseSpeed⟩ := h
  refine ⟨by rw [h'], by rw [h']; exact hc, ?_⟩
  intro n hn
  obtain ⟨i, rfl⟩ : ∃ i, n = 101 + i := ⟨n - 101, by omega⟩
  rw [b32_ticks_succ]
  rcases b32_level_one_ticks baseSpeed i with e | e
  · rw [e, hbase, hAB]
    exact ⟨rfl, rfl, Or.inl rfl, ha, hab⟩
  · rw [e, hbase, hBA]
    exact ⟨rfl, rfl, Or.inr rfl, hb, hab.symm⟩

set_option maxHeartbeats 4000000 in
/-- From rest with level `L` held (base speed 0), the object after 100 ticks, for
the levels 2, 3, 4 and -1, ..., -4. -/
theorem b32_from_rest_100 :
    ticks 100 ⟨ofInt32 2, 0, 0, 0⟩ = ⟨ofInt32 2, ofInt32 2, 16777205 * 2 ^ 126, 0⟩ ∧
    ticks 100 ⟨ofInt32 3, 0, 0, 0⟩ = ⟨ofInt32 3, ofInt32 3, 6291451 * 2 ^ 128, 0⟩ ∧
    ticks 100 ⟨ofInt32 4, 0, 0, 0⟩ = ⟨ofInt32 4, ofInt32 4, 16777205 * 2 ^ 127, 0⟩ ∧
    ticks 100 ⟨ofInt32 (-1), 0, 0, 0⟩ = ⟨ofInt32 (-1), ofInt32 (-1), 16777205 * 2 ^ 125, 0⟩ ∧
    ticks 100 ⟨ofInt32 (-2), 0, 0, 0⟩ = ⟨ofInt32 (-2), ofInt32 (-2), 16777205 * 2 ^ 126, 0⟩ ∧
    ticks 100 ⟨ofInt32 (-3), 0, 0, 0⟩ = ⟨ofInt32 (-3), ofInt32 (-3), 6291451 * 2 ^ 128, 0⟩ ∧
    ticks 100 ⟨ofInt32 (-4), 0, 0, 0⟩ = ⟨ofInt32 (-4), ofInt32 (-4), 16777205 * 2 ^ 127, 0⟩ := by
  refine ⟨?_, ?_, ?_, ?_, ?_, ?_, ?_⟩ <;> decide!

/-- From rest with a non-zero level `L` held, for any base speed, after 100 ticks
lastLevel is `L` and the multiplier is below `|L|`, by at most 3/1000000. -/
theorem b32_from_rest_near (L : ℤ) (hL : L ≠ 0) (hlo : -4 ≤ L) (hhi : L ≤ 4) (b : F32) :
    ∃ m : F32, ticks 100 ⟨ofInt32 L, 0, 0, b⟩ = ⟨ofInt32 L, ofInt32 L, m, b⟩ ∧
      |toRat32 m - ((|L| : ℤ) : ℚ)| ≤ 3 / 1000000 ∧ toRat32 m < ((|L| : ℤ) : ℚ) := by
  obtain ⟨p1, -, -, -⟩ := b32_level_one_cycle
  obtain ⟨p2, p3, p4, n1, n2, n3, n4⟩ := b32_from_rest_100
  have hb : ∀ (z : ℤ) (m : F32), ticks 100 ⟨ofInt32 z, 0, 0, 0⟩ = ⟨ofInt32 z, ofInt32 z, m, 0⟩ →
      ticks 100 ⟨ofInt32 z, 0, 0, b⟩ = ⟨ofInt32 z, ofInt32 z, m, b⟩ := by
    intro z m h
    have h2 := b32_ticks_base 100 b ⟨ofInt32 z, 0, 0, 0⟩
    rw [h] at h2
    exact h2
  have e1 : |toRat32 (16777205 * 2 ^ 125) - 1| ≤ 3 / 1000000 ∧
      toRat32 (16777205 * 2 ^ 125) < 1 := by
    unfold toRat32
    rw [abs_le]
    norm_num
  have e2 : |toRat32 (16777205 * 2 ^ 126) - 2| ≤ 3 / 1000000 ∧
      toRat32 (16777205 * 2 ^ 126) < 2 := by
    unfold toRat32
    rw [abs_le]
    norm_num
  have e3 : |toRat32 (6291451 * 2 ^ 128) - 3| ≤ 3 / 1000000 ∧
      toRat32 (6291451 * 2 ^ 128) < 3 := by
    unfold toRat32
    rw [abs_le]
    norm_num
  have e4 : |toRat32 (16777205 * 2 ^ 127) - 4| ≤ 3 / 1000000 ∧
      toRat32 (16777205 * 2 ^ 127) < 4 := by
    unfold toRat32
    rw [abs_le]
    norm_num
  interval_cases L
  · exact ⟨_, hb _ _ n4, by simpa using e4⟩
  · exact ⟨_, hb _ _ n3, by simpa using e3⟩
  · exact ⟨_, hb _ _ n2, by simpa using e2⟩
  · exact ⟨_, hb _ _ n1, by simpa using e1⟩
  · exact absurd rfl hL
  · exact ⟨_, hb _ _ p1, by simpa using e1⟩
  · exact ⟨_, hb _ _ p2, by simpa using e2⟩
  · exact ⟨_, hb _ _ p3, by simpa using e3⟩
  · exact ⟨_, hb _ _ p4, by simpa using e4⟩

/-! ## Claims settled on the binary32 code -/

/-- From rest with level 4 held, for any base speed: at each tick count `n ≤ 100`
the level is 4, lastLevel is not negative, the multiplier is below 4 and within
3/1000000 of 4n/100 (in units of `2 ^ (-149)`). -/
theorem b32_ticks_ramp (baseSpeed : F32) (n : Nat) (hn : n ≤ 100) :
    (ticks n (FullForward (construct baseSpeed))).movementNumber = ofInt32 4 ∧
    0 ≤ (ticks n (FullForward (construct baseSpeed))).lastMovementNumber ∧
    (ticks n (FullForward (construct baseSpeed))).movementMultiplier < ofInt32 4 ∧
    1000000 * (100 * (ticks n (FullForward (construct baseSpeed))).movementMultiplier -
      4 * (n : ℤ) * 2 ^ 149) ≤ 300 * 2 ^ 149 ∧
    1000000 * (4 * (n : ℤ) * 2 ^ 149 -
      100 * (ticks n (FullForward (construct baseSpeed))).movementMultiplier) ≤ 300 * 2 ^ 149 ∧
    (ticks n (FullForward (construct baseSpeed))).startingWalkSpeed = baseSpeed := by
  have hs : FullForward (construct baseSpeed) =
      { (⟨ofInt32 4, 0, 0, 0⟩ : AMovementCharacter) with startingWalkSpeed := baseSpeed } := rfl
  have h := checkRun_sound rampCheck 100 0 ⟨ofInt32 4, 0, 0, 0⟩ rampCheck_run n hn
  rw [Nat.zero_add] at h
  unfold rampCheck at h
  rw [decide_eq_true_iff] at h
  rw [hs, b32_ticks_base]
  exact ⟨h.1, h.2.1, h.2.2.1, h.2.2.2.1, h.2.2.2.2, rfl⟩

/-- C3, as stated, fails on the binary32 code.  From rest with level 4 held
(`FullForward` on the constructed object, base speed 600), the multiplier after
100 ticks is `16777205 * 2 ^ (-22)` = 3.99999738, not 4 = 0.04 * 100; the 101st
tick therefore takes the increase branch again, and the multiplier after 101 ticks
is `8472489 * 2 ^ (-21)` = 4.03999758, not 4. -/
theorem C3_counterexample :
    (ticks 100 (FullForward (construct (ofInt32 600)))).movementMultiplier =
      16777205 * 2 ^ 127 ∧
    toRat32 (ticks 100 (FullForward (construct (ofInt32 600)))).movementMultiplier ≠ 4 ∧
    (ticks 101 (FullForward (construct (ofInt32 600)))).movementMultiplier =
      8472489 * 2 ^ 128 ∧
    toRat32 (ticks 101 (FullForward (construct (ofInt32 600)))).movementMultiplier ≠ 4 := by
  have h100 : (ticks 100 (FullForward (construct (ofInt32 600)))).movementMultiplier =
      16777205 * 2 ^ 127 := by decide!
  have h101 : (ticks 101 (FullForward (construct (ofInt32 600)))).movementMultiplier =
      8472489 * 2 ^ 128 := by decide!
  refine ⟨h100, ?_, h101, ?_⟩
  · rw [h100]
    unfold toRat32
    norm_num
  · rw [h101]
    unfold toRat32
    norm_num

/-- C3, amended. Ramp-up from rest in binary32: starting from level = 0,
lastLevel = 0, multiplier = 0 and holding level at 4, for every n with
0 ≤ n ≤ 100 the multiplier after n ticks is within 3/1000000 of 0.04 * n and
strictly below 4; each of the first 101 ticks takes the increase branch (it adds
the binary32 product `0.01f * level`; the flat 0.01 correction does not fire),
writes the max speed and issues forward movement. -/
theorem C3_ramp_up_binary32 (baseSpeed : F32) (n : Nat) (hn : n ≤ 100) :
    (ticks n (FullForward (construct baseSpeed))).movementNumber = ofInt32 4 ∧
    |toRat32 (ticks n (FullForward (construct baseSpeed))).movementMultiplier -
      4 / 100 * (n : ℚ)| ≤ 3 / 1000000 ∧
    toRat32 (ticks n (FullForward (construct baseSpeed))).movementMultiplier < 4 ∧
    ((ticks n (FullForward (construct baseSpeed))).movementNumber > 0 ∧
      (ticks n (FullForward (construct baseSpeed))).lastMovementNumber ≥ 0 ∧
      (ticks n (FullForward (construct baseSpeed))).movementMultiplier ≠
        (ticks n (FullForward (construct baseSpeed))).movementNumber ∧
      (ticks n (FullForward (construct baseSpeed))).movementNumber >
        (ticks n (FullForward (construct baseSpeed))).movementMultiplier) ∧
    (Tick (ticks n (FullForward (construct baseSpeed)))).1.movementMultiplier =
      add32 (ticks n (FullForward (construct baseSpeed))).movementMultiplier
        (mul32 hundredth32 (ofInt32 4)) ∧
    (Tick (ticks n (FullForward (construct baseSpeed)))).2 =
      [EngineCall.SetMaxWalkSpeed (mul32 baseSpeed
          (Tick (ticks n (FullForward (construct baseSpeed)))).1.movementMultiplier),
        EngineCall.AddMovementInput (ofInt32 1)] := by
  obtain ⟨hl, hp, hm, ht1, ht2, hb⟩ := b32_ticks_ramp baseSpeed n hn
  generalize ticks n (FullForward (construct baseSpeed)) = s at hl hp hm ht1 ht2 hb ⊢
  have hpos : s.movementNumber > 0 := by
    rw [hl]
    exact (ofInt32_pos 4).mpr (by norm_num)
  have hlt : s.movementMultiplier < s.movementNumber := by rw [hl]; exact hm
  have h4 : ofInt32 4 = 4 * 2 ^ 149 := by unfold ofInt32; rfl
  rw [h4] at hm
  refine ⟨hl, ?_, ?_, ⟨hpos, hp, ne_of_lt hlt, hlt⟩, ?_, ?_⟩
  · have e1 : ((1000000 * (100 * s.movementMultiplier - 4 * (n : ℤ) * 2 ^ 149) : ℤ) : ℚ) ≤
        ((300 * 2 ^ 149 : ℤ) : ℚ) := Int.cast_le.mpr ht1
    have e2 : ((1000000 * (4 * (n : ℤ) * 2 ^ 149 - 100 * s.movementMultiplier) : ℤ) : ℚ) ≤
        ((300 * 2 ^ 149 : ℤ) : ℚ) := Int.cast_le.mpr ht2
    simp only [Int.cast_mul, Int.cast_sub, Int.cast_pow, Int.cast_ofNat, Int.cast_natCast]
      at e1 e2
    have hp2 : (0 : ℚ) < (2 : ℚ) ^ 149 := by positivity
    unfold toRat32
    generalize (2 : ℚ) ^ 149 = P at e1 e2 hp2 ⊢
    generalize (s.movementMultiplier : ℚ) = M at e1 e2 ⊢
    rw [abs_le]
    constructor
    · rw [le_sub_iff_add_le, le_div_iff₀ hp2]
      linarith
    · rw [sub_le_iff_le_add, div_le_iff₀ hp2]
      linarith
  · have e : ((s.movementMultiplier : ℤ) : ℚ) < ((4 * 2 ^ 149 : ℤ) : ℚ) := Int.cast_lt.mpr hm
    simp only [Int.cast_mul, Int.cast_pow, Int.cast_ofNat] at e
    have hp2 : (0 : ℚ) < (2 : ℚ) ^ 149 := by positivity
    unfold toRat32
    rw [div_lt_iff₀ hp2]
    exact e
  · rw [b32_Tick_forward s hpos hp]
    dsimp only
    rw [if_pos hlt, hl]
  · rw [b32_Tick_forward s hpos hp]
    dsimp only
    rw [if_pos hlt, hb]

/-- C3 amended at n = 100 with base speed 600: even after 100 ticks the multiplier
is below 4 and the next tick takes the increase branch and moves forward. -/
theorem C3_ramp_up_binary32_witness :
    100 ≤ 100 ∧
    toRat32 (ticks 100 (FullForward (construct (ofInt32 600)))).movementMultiplier < 4 ∧
    movementInputs (Tick (ticks 100 (FullForward (construct (ofInt32 600))))).2 =
      [ofInt32 1] := by
  have h := C3_ramp_up_binary32 (ofInt32 600) 100 le_rfl
  refine ⟨le_rfl, h.2.2.1, ?_⟩
  rw [h.2.2.2.2.2]
  rfl

/-- C5, as stated, fails on the binary32 code.  After `ForwardMovement`, 100 ticks
and `StopMovement` from the constructed object (base speed 600) the level is 0,
lastLevel is 1 and the multiplier is m = `16777205 * 2 ^ (-24)` = 0.99999934, so
k = ⌈100 m⌉ = 100; but after these 100 ticks the multiplier is `2 ^ (-26)`, still
positive, and the following tick is a decay tick again: it keeps lastLevel = 1,
writes the max speed and issues forward movement.  And from level 0, lastLevel 0,
multiplier `0.01f` a decay tick writes the max speed and issues no movement. -/
theorem C5_counterexample :
    run (construct (ofInt32 600))
        (Event.ForwardMovement :: (List.replicate 100 Event.Tick ++ [Event.StopMovement])) =
      ⟨0, ofInt32 1, 16777205 * 2 ^ 125, ofInt32 600⟩ ∧
    ⌈100 * toRat32 (16777205 * 2 ^ 125)⌉₊ = 100 ∧
    ticks 100 ⟨0, ofInt32 1, 16777205 * 2 ^ 125, ofInt32 600⟩ =
      ⟨0, ofInt32 1, 2 ^ 123, ofInt32 600⟩ ∧
    ¬ ((ticks 100 ⟨0, ofInt32 1, 16777205 * 2 ^ 125, ofInt32 600⟩).movementMultiplier ≤ 0) ∧
    Tick (ticks 100 ⟨0, ofInt32 1, 16777205 * 2 ^ 125, ofInt32 600⟩) =
      (⟨0, ofInt32 1, -(5368701 * 2 ^ 120), ofInt32 600⟩,
        [EngineCall.SetMaxWalkSpeed (-(12582893 * 2 ^ 128)),
          EngineCall.AddMovementInput (ofInt32 1)]) ∧
    movementInputs (Tick ⟨0, 0, hundredth32, ofInt32 600⟩).2 = [] := by
  have h1 : run (construct (ofInt32 600))
        (Event.ForwardMovement :: (List.replicate 100 Event.Tick ++ [Event.StopMovement])) =
      ⟨0, ofInt32 1, 16777205 * 2 ^ 125, ofInt32 600⟩ := by decide!
  have h2 : ticks 100 ⟨0, ofInt32 1, 16777205 * 2 ^ 125, ofInt32 600⟩ =
      ⟨0, ofInt32 1, 2 ^ 123, ofInt32 600⟩ := by decide!
  have h3 : Tick ⟨0, ofInt32 1, 2 ^ 123, ofInt32 600⟩ =
      (⟨0, ofInt32 1, -(5368701 * 2 ^ 120), ofInt32 600⟩,
        [EngineCall.SetMaxWalkSpeed (-(12582893 * 2 ^ 128)),
          EngineCall.AddMovementInput (ofInt32 1)]) := by decide!
  have h4 : movementInputs (Tick ⟨0, 0, hundredth32, ofInt32 600⟩).2 = [] := by decide!
  refine ⟨h1, ?_, h2, ?_, ?_, h4⟩
  · rw [Nat.ceil_eq_iff (by norm_num)]
    unfold toRat32
    norm_num
  · rw [h2]
    norm_num
  · rw [h2]
    exact h3

/-- C5, amended. Neutral decay and settling in binary32: for every state with
level = 0 and 0 < multiplier = m < 8, with level held at 0, there is a number
k ≥ 1 of ticks, with (k - 1) * (0.01f - 2^(-22)) < m ≤ k * (0.01f + 2^(-22)) (so k
is ⌈100 m⌉ up to rounding, not always equal to it), such that each of the next k
ticks replaces the multiplier by the binary32 difference multiplier - 0.01f, which
is strictly smaller, leaves lastLevel unchanged, writes max speed = baseSpeed *
(the updated multiplier) (binary32 product) and issues movement by the sign of
lastLevel: +1 if lastLevel > 0, -1 if lastLevel < 0, none if lastLevel = 0; after
these k ticks multiplier ≤ 0, the following tick sets lastLevel = 0 and makes no
engine call, and every later tick makes no engine call and changes nothing. -/
theorem C5_neutral_decay_binary32 (s : AMovementCharacter) (hl : s.movementNumber = 0)
    (hm : 0 < s.movementMultiplier) (hb : s.movementMultiplier < ofInt32 8) :
    ∃ k : Nat, 1 ≤ k ∧
      ((k : ℤ) - 1) * (hundredth32 - 2 ^ 127) < s.movementMultiplier ∧
      s.movementMultiplier ≤ (k : ℤ) * (hundredth32 + 2 ^ 127) ∧
      (∀ j : Nat, j < k →
        0 < (ticks j s).movementMultiplier ∧
        (Tick (ticks j s)).1.movementMultiplier =
          sub32 (ticks j s).movementMultiplier hundredth32 ∧
        (Tick (ticks j s)).1.movementMultiplier < (ticks j s).movementMultiplier ∧
        (ticks j s).lastMovementNumber = s.lastMovementNumber ∧
        (Tick (ticks j s)).1.lastMovementNumber = s.lastMovementNumber ∧
        (Tick (ticks j s)).2 =
          EngineCall.SetMaxWalkSpeed
              (mul32 s.startingWalkSpeed (Tick (ticks j s)).1.movementMultiplier) ::
            (if s.lastMovementNumber > 0 then [EngineCall.AddMovementInput (ofInt32 1)]
             else if s.lastMovementNumber < 0 then [EngineCall.AddMovementInput (ofInt32 (-1))]
             else [])) ∧
      (ticks k s).movementMultiplier ≤ 0 ∧
      (Tick (ticks k s)).1.lastMovementNumber = 0 ∧
      (Tick (ticks k s)).2 = [] ∧
      (∀ n : Nat, k < n → Tick (ticks n s) = (ticks n s, [])) := by
  obtain ⟨hc1, hc2⟩ := hundredth32_bounds
  have h8 : ofInt32 8 = 2 ^ 152 := by unfold ofInt32; norm_num
  rw [h8] at hb
  have hN : s.movementMultiplier ≤
      ((s.movementMultiplier.toNat : Nat) : ℤ) * (hundredth32 - 2 ^ 127) := by
    rw [Int.toNat_of_nonneg (le_of_lt hm)]
    have h1 : (1 : ℤ) ≤ hundredth32 - 2 ^ 127 := by linarith
    calc s.movementMultiplier = s.movementMultiplier * 1 := (mul_one _).symm
      _ ≤ s.movementMultiplier * (hundredth32 - 2 ^ 127) :=
          mul_le_mul_of_nonneg_left h1 (le_of_lt hm)
  obtain ⟨k, hk1, hk2, hk3, hk4, hk5, hk6⟩ :=
    b32_decay_run s.movementMultiplier.toNat s hl hb hN
  obtain ⟨hrest1, hrest2⟩ := b32_neutral_rest_forever (ticks k s) hk5 hk4
  refine ⟨k, (hk1 hm).1, (hk1 hm).2, hk2, ?_, hk4, ?_, ?_, ?_⟩
  · intro j hj
    obtain ⟨hj1, hj2, hj3, hj4, hj5⟩ := hk3 j hj
    have hT := b32_Tick_neutral_decay (ticks j s) hj2 hj1
    have hsub : sub32 (ticks j s).movementMultiplier hundredth32 =
        roundInt ((ticks j s).movementMultiplier - hundredth32) 0 := by unfold sub32; rfl
    obtain ⟨-, e2⟩ := roundInt_near ((ticks j s).movementMultiplier - hundredth32)
      (by norm_num at hc2 ⊢; linarith) (by linarith)
    rw [← hsub] at e2
    rw [hT]
    dsimp only
    rw [hj3, hj4]
    exact ⟨hj1, rfl, by linarith, rfl, rfl, rfl⟩
  · rw [hrest1]
  · rw [hrest1]
  · intro n hn
    obtain ⟨i, rfl⟩ : ∃ i, n = k + i := ⟨n - k, by omega⟩
    rw [b32_ticks_add]
    exact (hrest2 i (by omega)).2

/-- C5 amended at the state of the counterexample (level 0, lastLevel 1, multiplier
0.99999934, base speed 600): the hypotheses hold and a number k of decay ticks
exists; the first of them lowers the multiplier and moves forward. -/
theorem C5_neutral_decay_binary32_witness :
    (⟨0, ofInt32 1, 16777205 * 2 ^ 125, ofInt32 600⟩ : AMovementCharacter).movementNumber = 0 ∧
    0 < (⟨0, ofInt32 1, 16777205 * 2 ^ 125, ofInt32 600⟩ :
      AMovementCharacter).movementMultiplier ∧
    (⟨0, ofInt32 1, 16777205 * 2 ^ 125, ofInt32 600⟩ :
      AMovementCharacter).movementMultiplier < ofInt32 8 ∧
    ∃ k : Nat, 1 ≤ k ∧
      (ticks k ⟨0, ofInt32 1, 16777205 * 2 ^ 125, ofInt32 600⟩).movementMultiplier ≤ 0 ∧
      (Tick (ticks k ⟨0, ofInt32 1, 16777205 * 2 ^ 125, ofInt32 600⟩)).2 = [] := by
  have h1 : (0 : ℤ) < 16777205 * 2 ^ 125 := by norm_num
  have h2 : (16777205 * 2 ^ 125 : ℤ) < ofInt32 8 := by unfold ofInt32; norm_num
  obtain ⟨k, hk, -, -, -, hle, -, hcalls, -⟩ :=
    C5_neutral_decay_binary32 ⟨0, ofInt32 1, 16777205 * 2 ^ 125, ofInt32 600⟩ rfl h1 h2
  exact ⟨rfl, h1, h2, k, hk, hle, hcalls⟩

/-- C13, as stated, fails on the binary32 code.  After `FullForward` and 101 ticks
from the constructed object (base speed 600) the multiplier is
`8472489 * 2 ^ (-21)` = 4.03999758, above 4.03; and after `FullForward` and one
tick it is `0.04f` = `5368709 * 2 ^ (-27)`, so 100 * multiplier is not an
integer. -/
theorem C13_counterexample :
    (run (construct (ofInt32 600))
      (Event.FullForward :: List.replicate 101 Event.Tick)).movementMultiplier =
        8472489 * 2 ^ 128 ∧
    ¬ (toRat32 (run (construct (ofInt32 600))
      (Event.FullForward :: List.replicate 101 Event.Tick)).movementMultiplier ≤ 403 / 100) ∧
    (run (construct (ofInt32 600)) [Event.FullForward, Event.Tick]).movementMultiplier =
      5368709 * 2 ^ 122 ∧
    ¬ ∃ k : ℤ, 100 * toRat32
      (run (construct (ofInt32 600)) [Event.FullForward, Event.Tick]).movementMultiplier =
        (k : ℚ) := by
  have h101 : (run (construct (ofInt32 600))
      (Event.FullForward :: List.replicate 101 Event.Tick)).movementMultiplier =
        8472489 * 2 ^ 128 := by decide!
  have h1 : (run (construct (ofInt32 600))
      [Event.FullForward, Event.Tick]).movementMultiplier = 5368709 * 2 ^ 122 := by decide!
  refine ⟨h101, ?_, h1, ?_⟩
  · rw [h101]
    unfold toRat32
    norm_num
  · rw [h1]
    unfold toRat32
    rintro ⟨k, hk⟩
    have hq : (k : ℚ) * 134217728 = 536870900 := by
      rw [← hk]
      norm_num
    have hz : k * 134217728 = 536870900 := by exact_mod_cast hq
    omega

/-- C13, amended. Multiplier bounds in binary32: in every object reachable from
the constructed one (level = lastLevel = multiplier = 0) by any interleaving of
the five input commands and ticks, computed in binary32 as the code does,
-0.040001 < multiplier < 4.040001.  (The multiplier is a binary32 value; 100 *
multiplier is in general not an integer.) -/
theorem C13_multiplier_bounds_binary32 (maxWalkSpeed : F32) (events : List Event) :
    -40001 / 1000000 < toRat32 (run (construct maxWalkSpeed) events).movementMultiplier ∧
    toRat32 (run (construct maxWalkSpeed) events).movementMultiplier < 4040001 / 1000000 := by
  obtain ⟨hl0, hm0⟩ := b32_invariants_construct maxWalkSpeed
  obtain ⟨-, hlo, hhi⟩ := b32_invariants_run events (construct maxWalkSpeed) hl0 hm0
  have h4 : ofInt32 4 = 4 * 2 ^ 149 := by unfold ofInt32; rfl
  have hh : hundredth32 = 10737418 * 2 ^ 119 := by unfold hundredth32; rfl
  rw [h4, hh] at hhi
  rw [hh] at hlo
  generalize (run (construct maxWalkSpeed) events).movementMultiplier = m at hlo hhi ⊢
  have h1 : -40001 * 2 ^ 149 < 1000000 * m := by
    norm_num at hlo ⊢
    linarith
  have h2 : 1000000 * m < 4040001 * 2 ^ 149 := by
    norm_num at hhi ⊢
    linarith
  have h1q : ((-40001 * 2 ^ 149 : ℤ) : ℚ) < ((1000000 * m : ℤ) : ℚ) := Int.cast_lt.mpr h1
  have h2q : ((1000000 * m : ℤ) : ℚ) < ((4040001 * 2 ^ 149 : ℤ) : ℚ) := Int.cast_lt.mpr h2
  rw [Int.cast_mul, Int.cast_mul, Int.cast_pow] at h1q h2q
  have e0 : ((2 : ℤ) : ℚ) = 2 := by norm_num
  have e1 : ((-40001 : ℤ) : ℚ) = -40001 := by norm_num
  have e2 : ((1000000 : ℤ) : ℚ) = 1000000 := by norm_num
  have e3 : ((4040001 : ℤ) : ℚ) = 4040001 := by norm_num
  rw [e0, e1, e2] at h1q
  rw [e0, e2, e3] at h2q
  have hp : (0 : ℚ) < (2 : ℚ) ^ 149 := by positivity
  unfold toRat32
  generalize (2 : ℚ) ^ 149 = P at h1q h2q hp ⊢
  constructor
  · rw [lt_div_iff₀ hp]
    linarith
  · rw [div_lt_iff₀ hp]
    linarith

/-- C14, as stated, fails on the binary32 code.  `ForwardMovement` on the
constructed object (base speed 600) gives level 1 with lastLevel = multiplier = 0.
With level 1 held the multiplier after 100 ticks is `16777205 * 2 ^ (-24)` =
0.99999934, not 1; after every `n ≥ 101` ticks it is not 1 and the next tick
changes it (it alternates between 1.00999939 and 0.99999940 for ever); so there
is no number of ticks from which on the multiplier is 1. -/
theorem C14_counterexample :
    run (construct (ofInt32 600)) [Event.ForwardMovement] = ⟨ofInt32 1, 0, 0, ofInt32 600⟩ ∧
    (ticks 100 ⟨ofInt32 1, 0, 0, ofInt32 600⟩).movementMultiplier = 16777205 * 2 ^ 125 ∧
    toRat32 (ticks 100 ⟨ofInt32 1, 0, 0, ofInt32 600⟩).movementMultiplier ≠ 1 ∧
    (∀ n : Nat, 101 ≤ n →
      toRat32 (ticks n ⟨ofInt32 1, 0, 0, ofInt32 600⟩).movementMultiplier ≠ 1 ∧
      (ticks (n + 1) ⟨ofInt32 1, 0, 0, ofInt32 600⟩).movementMultiplier ≠
        (ticks n ⟨ofInt32 1, 0, 0, ofInt32 600⟩).movementMultiplier) ∧
    ¬ ∃ n : Nat, ∀ m : Nat, n ≤ m →
      toRat32 (ticks m ⟨ofInt32 1, 0, 0, ofInt32 600⟩).movementMultiplier = 1 := by
  have hF : run (construct (ofInt32 600)) [Event.ForwardMovement] =
      ⟨ofInt32 1, 0, 0, ofInt32 600⟩ := b32_ForwardMovement_construct (ofInt32 600)
  have h := b32_level_one_never_settles (ofInt32 600)
  rw [b32_ForwardMovement_construct] at h
  obtain ⟨h100, hne, hall⟩ := h
  refine ⟨hF, h100, hne, fun n hn => ⟨(hall n hn).2.2.2.1, (hall n hn).2.2.2.2⟩, ?_⟩
  rintro ⟨n, hn⟩
  exact (hall (n + 101) (by omega)).2.2.2.1 (hn (n + 101) (by omega))

/-- C14, amended. Convergence to a band around the target, in binary32 as the code
computes: for every object reachable from the constructed one with level = L ≠ 0,
holding level at L, there is a number n of ticks such that after every m ≥ n
ticks level = L, lastLevel = L and the multiplier is within 0.01 * |L| + 0.0000003
of |L| (it need not equal |L|, and need not come to rest); and from rest with
lastLevel = 0, for each L in {1, 2, 3, 4, -1, -2, -3, -4} and every base speed,
after 100 ticks lastLevel = L and the multiplier is below |L| by at most
0.000003. -/
theorem C14_convergence_binary32 (maxWalkSpeed : F32) (events : List Event) (L : ℤ)
    (hL : L ≠ 0) (hl : (run (construct maxWalkSpeed) events).movementNumber = ofInt32 L) :
    (∃ n : Nat, ∀ m : Nat, n ≤ m →
      (ticks m (run (construct maxWalkSpeed) events)).movementNumber = ofInt32 L ∧
      (ticks m (run (construct maxWalkSpeed) events)).lastMovementNumber = ofInt32 L ∧
      |toRat32 (ticks m (run (construct maxWalkSpeed) events)).movementMultiplier -
          ((|L| : ℤ) : ℚ)| ≤ ((|L| : ℤ) : ℚ) / 100 + 3 / 10000000) ∧
    (∀ K : ℤ, K ≠ 0 → -4 ≤ K → K ≤ 4 →
      (ticks 100 ⟨ofInt32 K, 0, 0, maxWalkSpeed⟩).movementNumber = ofInt32 K ∧
      (ticks 100 ⟨ofInt32 K, 0, 0, maxWalkSpeed⟩).lastMovementNumber = ofInt32 K ∧
      |toRat32 (ticks 100 ⟨ofInt32 K, 0, 0, maxWalkSpeed⟩).movementMultiplier -
          ((|K| : ℤ) : ℚ)| ≤ 3 / 1000000 ∧
      toRat32 (ticks 100 ⟨ofInt32 K, 0, 0, maxWalkSpeed⟩).movementMultiplier <
        ((|K| : ℤ) : ℚ)) := by
  constructor
  · obtain ⟨hl0, hm0⟩ := b32_invariants_construct maxWalkSpeed
    obtain ⟨⟨z, hz, hlo, hhi⟩, hm⟩ := b32_invariants_run events (construct maxWalkSpeed) hl0 hm0
    have hzL : z = L := (ofInt32_inj z L).mp (by rw [← hz, hl])
    subst hzL
    obtain ⟨n, hn⟩ := b32_settles_near z hL hlo hhi _ hl hm
    refine ⟨n, fun m hnm => ?_⟩
    obtain ⟨a1, a2, a3, a4⟩ := hn m hnm
    exact ⟨a1, a2, toRat32_near _ _ (abs_nonneg z) a3 a4⟩
  · intro K hK hlo hhi
    obtain ⟨m, hm, h1, h2⟩ := b32_from_rest_near K hK hlo hhi maxWalkSpeed
    rw [hm]
    exact ⟨rfl, rfl, h1, h2⟩

/-- The amended C14 at the constructed object with base speed 600 after
`ForwardMovement`, which has level 1. -/
theorem C14_convergence_binary32_witness :
    (1 : ℤ) ≠ 0 ∧
    (run (construct (ofInt32 600)) [Event.ForwardMovement]).movementNumber = ofInt32 1 ∧
    ∃ n : Nat, ∀ m : Nat, n ≤ m →
      (ticks m (run (construct (ofInt32 600)) [Event.ForwardMovement])).movementNumber =
        ofInt32 1 ∧
      (ticks m (run (construct (ofInt32 600)) [Event.ForwardMovement])).lastMovementNumber =
        ofInt32 1 ∧
      |toRat32 (ticks m (run (construct (ofInt32 600))
          [Event.ForwardMovement])).movementMultiplier - ((|1| : ℤ) : ℚ)| ≤
        ((|1| : ℤ) : ℚ) / 100 + 3 / 10000000 :=
  ⟨by decide, by decide!,
    (C14_convergence_binary32 (ofInt32 600) [Event.ForwardMovement] 1 (by decide)
      (by decide!)).1⟩

end Binary32

end Movement
